import Mathlib

/-!
# firewall-syslog: extraction grammar, action derivation, timestamp relabelling, persistence

A shallow embedding of `main.go`.

* Go strings are modelled as lists of characters (`Str`). Every literal and every
  character class of `myExp` is ASCII, `.` is the only construct that can consume a
  non-ASCII rune, and the only string that is indexed by bytes (`result["rule"]`) is a
  capture of the ASCII class `[0-9A-Za-z_-]`, so bytes and characters coincide wherever
  the program looks at them.
* `regexp.FindStringSubmatch` is modelled by a backtracking matcher that explores the
  alternatives in the priority order of Go's leftmost-first semantics (greedy operators
  prefer one more iteration, lazy operators prefer to stop, the search prefers the
  leftmost start).
-/

set_option maxRecDepth 100000

namespace FirewallSyslog

/-- Go strings, as sequences of characters. -/
abbrev Str := List Char

/-! ## Regular expressions (`regexp`, RE2 syntax) -/

/-- Abstract syntax of the fragment of RE2 that `myExp` uses. A character class is a
list of inclusive ranges. -/
inductive Regex where
  /-- A literal string, e.g. `IN=`. -/
  | lit (s : Str)
  /-- A character class, e.g. `[0-9A-Za-z\.]`. -/
  | cls (ranges : List (Char × Char))
  /-- The dot: any character but the line feed. -/
  | dot
  /-- Concatenation. -/
  | seq (a b : Regex)
  /-- Repetition `r*` (`greedy = true`) or `r*?` (`greedy = false`). -/
  | star (greedy : Bool) (r : Regex)
  /-- Capturing group number `idx`. -/
  | group (idx : Nat) (r : Regex)

/-- Repetition `r+` / `r+?`, which is `r r*` / `r r*?`. -/
def Regex.plus (greedy : Bool) (r : Regex) : Regex := Regex.seq r (Regex.star greedy r)

/-- Concatenation of a list of expressions. -/
def Regex.seqs : List Regex → Regex
  | [] => Regex.lit []
  | [r] => r
  | r :: rs => Regex.seq r (Regex.seqs rs)

/-- Membership of a character in a class given by ranges. -/
def inClass (ranges : List (Char × Char)) (c : Char) : Bool :=
  ranges.any fun r => decide (r.1.toNat ≤ c.toNat) && decide (c.toNat ≤ r.2.toNat)

/-- Submatches: entry `i` is the text captured by group `i`, `none` when the group did
not take part in the match. -/
abbrev Caps := List (Option Str)

/-- Continuation of the matcher: what remains to be matched after the current
expression, applied to the remaining input and the captures so far. -/
abbrev Cont := Str → Caps → Option Caps

/-- Strip the literal `l` from the front of the input. -/
def stripLit : Str → Str → Option Str
  | [], s => some s
  | _ :: _, [] => none
  | a :: l, b :: s => if a = b then stripLit l s else none

/-- Repetition of `step`, with the iterations tried in priority order. An iteration
that consumes nothing is not repeated. `fuel` bounds the number of iterations and is
instantiated with the length of the input. -/
def matchStar (step : Str → Caps → Cont → Option Caps) (greedy : Bool) :
    Nat → Str → Caps → Cont → Option Caps
  | 0, s, c, k => k s c
  | fuel + 1, s, c, k =>
    let more := step s c fun s' c' =>
      if s'.length < s.length then matchStar step greedy fuel s' c' k else none
    if greedy then more <|> k s c else k s c <|> more

/-- The backtracking matcher: match `r` at the front of the input and hand the rest to
the continuation; the first success in priority order is the result. -/
def matchRe : Regex → Str → Caps → Cont → Option Caps
  | Regex.lit l => fun s c k =>
    match stripLit l s with
    | some s' => k s' c
    | none => none
  | Regex.cls rs => fun s c k =>
    match s with
    | x :: s' => if inClass rs x then k s' c else none
    | [] => none
  | Regex.dot => fun s c k =>
    match s with
    | x :: s' => if x ≠ '\n' then k s' c else none
    | [] => none
  | Regex.seq a b => fun s c k => matchRe a s c fun s' c' => matchRe b s' c' k
  | Regex.star g r => fun s c k => matchStar (matchRe r) g s.length s c k
  | Regex.group i r => fun s c k =>
    matchRe r s c fun s' c' => k s' (c'.set i (some (s.take (s.length - s'.length))))

/-- Leftmost search: try the start positions from left to right. -/
def search (re : Regex) (ngroups : Nat) : Str → Option Caps
  | [] => matchRe re [] (List.replicate ngroups none) fun _ c => some c
  | x :: s =>
    matchRe re (x :: s) (List.replicate ngroups none) (fun _ c => some c) <|>
      search re ngroups s

/-! ## The extraction grammar -/

/-- Perl class `\s`: `[\t\n\f\r ]`. -/
def reSpace : Regex := Regex.cls [('\t', '\n'), ('\x0c', '\r'), (' ', ' ')]

/-- Class `[[:alnum:]]`. -/
def reAlnum : Regex := Regex.cls [('0', '9'), ('A', 'Z'), ('a', 'z')]

/-- Class `[0-9A-Za-z\_\-]`. -/
def reRuleChar : Regex := Regex.cls [('0', '9'), ('A', 'Z'), ('a', 'z'), ('_', '_'), ('-', '-')]

/-- Class `[0-9A-Za-z\:\_\-]`. -/
def reMacChar : Regex :=
  Regex.cls [('0', '9'), ('A', 'Z'), ('a', 'z'), (':', ':'), ('_', '_'), ('-', '-')]

/-- Class `[0-9A-Za-z\.]`. -/
def reAddrChar : Regex := Regex.cls [('0', '9'), ('A', 'Z'), ('a', 'z'), ('.', '.')]

/-- Class `[A-Za-z]`. -/
def reAlpha : Regex := Regex.cls [('A', 'Z'), ('a', 'z')]

/-- Class `[0-9]`. -/
def reDigit : Regex := Regex.cls [('0', '9')]

/-- The group `(?P<ports>SPT=*(?P<spt>[0-9]*)\s+?DPT=*(?P<dpt>[0-9]*))`. -/
def rePorts : Regex :=
  Regex.group 8 (Regex.seqs [
    Regex.lit "SPT".toList, Regex.star true (Regex.lit "=".toList),
    Regex.group 9 (Regex.star true reDigit),
    Regex.plus false reSpace,
    Regex.lit "DPT".toList, Regex.star true (Regex.lit "=".toList),
    Regex.group 10 (Regex.star true reDigit)])

/-- The body of `myExp`, piece by piece in the order of the pattern. -/
def myExpBody : Regex :=
  Regex.seqs [
    Regex.star true reSpace,
    Regex.lit "[".toList, Regex.group 1 (Regex.star true reRuleChar), Regex.lit "]".toList,
    Regex.star false reSpace,
    Regex.lit "IN=".toList, Regex.group 2 (Regex.star true reAlnum),
    Regex.plus false reSpace,
    Regex.lit "OUT=".toList, Regex.group 3 (Regex.star true reAlnum),
    Regex.plus false reSpace,
    Regex.lit "MAC=".toList, Regex.group 4 (Regex.star true reMacChar),
    Regex.plus false reSpace,
    Regex.lit "SRC=".toList, Regex.group 5 (Regex.star true reAddrChar),
    Regex.plus false reSpace,
    Regex.lit "DST=".toList, Regex.group 6 (Regex.star true reAddrChar),
    Regex.plus false reSpace,
    Regex.star true Regex.dot,
    Regex.lit "PROTO=".toList, Regex.group 7 (Regex.star true reAlpha),
    Regex.plus false reSpace,
    Regex.star true rePorts]

/-- The pattern
`\s*\[(?P<rule>[0-9A-Za-z\_\-]*)\]\s*?IN=(?P<in>[[:alnum:]]*)\s+?OUT=(?P<out>[[:alnum:]]*)\s+?MAC=(?P<mac>[0-9A-Za-z\:\_\-]*)\s+?SRC=(?P<src>[0-9A-Za-z\.]*)\s+?DST=(?P<dst>[0-9A-Za-z\.]*)\s+?.*PROTO=(?P<proto>[A-Za-z]*)\s+?(?P<ports>SPT=*(?P<spt>[0-9]*)\s+?DPT=*(?P<dpt>[0-9]*))*`;
group 0 is the whole match. -/
def myExp : Regex := Regex.group 0 myExpBody

/-- The names of the groups of `myExp`, by index (`myExp.SubexpNames()`). -/
def subexpNames : List Str :=
  ["", "rule", "in", "out", "mac", "src", "dst", "proto", "ports", "spt", "dpt"].map String.toList

/-- Submatch indices of the leftmost match of `myExp`, `none` when there is no match;
a group that did not take part is `none`. -/
def findSubmatchCaps (content : Str) : Option Caps :=
  search myExp subexpNames.length content

/-- The call `myExp.FindStringSubmatch(content)`: `none` is the nil slice returned when there is
no match; otherwise one string per group, empty for a group that did not take part. -/
def findStringSubmatch (content : Str) : Option (List Str) :=
  (findSubmatchCaps content).map fun caps => caps.map fun o => o.getD []

/-! ## Package `time` (standard library)

The calendar is the proleptic Gregorian calendar that package `time` documents; the
conversions below are the usual era-based ones. A location is given by what
`Location.lookup` returns: the offset in force at an instant and the bounds of the
period during which it is in force. -/

/-- What `Location.lookup(sec)` returns: the offset (seconds east of UTC) in force at
`sec` and the half-open period `[start, stop)` of instants during which it is. -/
structure ZoneSpan where
  offset : Int
  start : Int
  stop : Int
  deriving DecidableEq, Repr

/-- A `*time.Location`. -/
structure Location where
  lookup : Int → ZoneSpan

/-- The bounds `alpha` and `omega` package `time` uses for "since ever" and "for ever". -/
def zoneAlpha : Int := -(2 ^ 63)

/-- See `zoneAlpha`. -/
def zoneOmega : Int := 2 ^ 63 - 1

/-- Lookup in a list of transitions `(when, offset)` in increasing order of `when`:
`offset` has been in force since `start`. -/
def lookupTx (offset start : Int) : List (Int × Int) → Int → ZoneSpan
  | [], _ => ⟨offset, start, zoneOmega⟩
  | (w, off) :: rest, sec =>
    if sec < w then ⟨offset, start, w⟩ else lookupTx off w rest sec

/-- The location with offset `first` before its first transition and the transitions
`tx`. -/
def Location.ofTransitions (first : Int) (tx : List (Int × Int)) : Location :=
  ⟨lookupTx first zoneAlpha tx⟩

/-- A `time.Time`: seconds since the Unix epoch, nanoseconds within the second, and the
location it is displayed in. -/
structure Time where
  unix : Int
  nsec : Int
  loc : Location

/-- Calendar fields, as read by `Year()`, `Month()`, `Day()`, `Hour()`, `Minute()`,
`Second()` and `Nanosecond()`. -/
structure Civil where
  year : Int
  month : Int
  day : Int
  hour : Int
  minute : Int
  second : Int
  nanosecond : Int
  deriving DecidableEq, Repr

/-- Year, month and day of the day that is `z` days after 1970-01-01. Days are counted
within an era of 400 years that starts on the first of March; `n100`, `n4` and `n1` are
the whole centuries, the whole four-year cycles and the whole years that have gone by. -/
def civilOfDays (z : Int) : Int × Int × Int :=
  let z := z + 719468
  let era := z / 146097
  let doe := z - era * 146097
  let n100 := if doe / 36524 ≥ 4 then 3 else doe / 36524
  let r100 := doe - 36524 * n100
  let n4 := r100 / 1461
  let r4 := r100 - 1461 * n4
  let n1 := if r4 / 365 ≥ 4 then 3 else r4 / 365
  let yoe := 100 * n100 + 4 * n4 + n1
  let doy := r4 - 365 * n1
  let mp := (5 * doy + 2) / 153
  let d := doy - (153 * mp + 2) / 5 + 1
  let m := if mp < 10 then mp + 3 else mp - 9
  (if m ≤ 2 then yoe + era * 400 + 1 else yoe + era * 400, m, d)

/-- Days from 1970-01-01 to the given year, month and day. -/
def daysOfCivil (y m d : Int) : Int :=
  let y := if m ≤ 2 then y - 1 else y
  let era := y / 400
  let yoe := y - era * 400
  let doy := (153 * (if m > 2 then m - 3 else m + 9) + 2) / 5 + d - 1
  let doe := yoe * 365 + yoe / 4 - yoe / 100 + doy
  era * 146097 + doe - 719468

/-- The wall clock of `t` in its own location, in seconds: `t.unix` plus the offset in
force at `t` (what `t.abs()` computes, up to the choice of epoch). -/
def Time.wall (t : Time) : Int := t.unix + (t.loc.lookup t.unix).offset

/-- The calendar fields of `t`, read in its own location. -/
def Time.fields (t : Time) : Civil :=
  let w := t.wall
  let ymd := civilOfDays (w / 86400)
  let r := w % 86400
  ⟨ymd.1, ymd.2.1, ymd.2.2, r / 3600, r % 3600 / 60, r % 60, t.nsec⟩

/-- The offset `time.Date` subtracts from the wall clock `unix`: the offset in force at
`unix` when `unix - offset` falls in the same period, else the offset in force at
`unix - offset`. -/
def dateOffset (loc : Location) (unix : Int) : Int :=
  let z := loc.lookup unix
  if z.offset ≠ 0 then
    let utc := unix - z.offset
    if utc < z.start ∨ utc ≥ z.stop then (loc.lookup utc).offset else z.offset
  else 0

/-- The call `time.Date(year, month, day, hour, min, sec, nsec, loc)` for fields that are in
range, as fields read off a `Time` are (no normalisation takes place). -/
def Date (c : Civil) (loc : Location) : Time :=
  let unix := daysOfCivil c.year c.month c.day * 86400 + c.hour * 3600 + c.minute * 60 + c.second
  ⟨unix - dateOffset loc unix, c.nanosecond, loc⟩

/-- The call `setTimeZone(&ts)`, with `zone` the location `time.LoadLocation("Local")` returns
(for the name `Local` that call returns `time.Local` and no error). -/
def setTimeZone (zone : Location) (ts : Time) : Time :=
  Date ts.fields zone

/-! ## `cast.ToInt` (github.com/spf13/cast) -/

/-- Value of a string of digits in base `base`, `none` at a character that is not a
digit of that base. -/
def parseDigits (base : Nat) : Str → Nat → Option Nat
  | [], acc => some acc
  | c :: s, acc =>
    if '0'.toNat ≤ c.toNat ∧ c.toNat < '0'.toNat + base then
      parseDigits base s (acc * base + (c.toNat - '0'.toNat))
    else none

/-- The function `cast.ToInt` on a string, which is `strconv.ParseInt(s, 0, 0)` with every error
turned into `0`. The model covers the strings the pipeline passes, captures of
`[0-9]*`: the empty string is a syntax error, a leading `0` selects base 8, a value
that does not fit 64 bits is a range error. Strings with a sign, a base letter or an
underscore do not occur and are mapped to `0` as well. -/
def castToInt (s : Str) : Int :=
  match s with
  | [] => 0
  | c :: rest =>
    let v := if c = '0' then parseDigits 8 rest 0 else parseDigits 10 s 0
    match v with
    | some n => if n < 2 ^ 63 then (n : Int) else 0
    | none => 0

/-! ## The consumer loop of `main` and `CreateSyslog` -/

/-- The ways the program stops abnormally. -/
inductive Fault where
  /-- Run-time panic `index out of range`, at `match[i]`. -/
  | indexOutOfRange
  /-- Run-time panic `slice bounds out of range`, at `r[l-1:]`. -/
  | sliceBounds
  /-- Exit through `log.Fatal` after `CreateSyslog` returned an error. -/
  | fatal
  deriving DecidableEq, Repr

/-- A `map[string]string`, as the list of its entries. -/
abbrev StrMap := List (Str × Str)

/-- Assignment `m[k] = v`. -/
def StrMap.put (m : StrMap) (k v : Str) : StrMap :=
  if m.any (fun p => p.1 = k) then m.map (fun p => if p.1 = k then (k, v) else p)
  else m ++ [(k, v)]

/-- Lookup `m[k]`: the zero value `""` for a key that is absent. -/
def StrMap.get (m : StrMap) (k : Str) : Str := (m.lookup k).getD []

/-- The loop `for i, name := range myExp.SubexpNames()` filling `result`; `matched` is
the slice `match` (empty for nil), whose indexing faults out of range. -/
def extractLoop (matched : List Str) : List (Nat × Str) → StrMap → Except Fault StrMap
  | [], result => Except.ok result
  | (i, name) :: rest, result =>
    if i ≠ 0 ∧ name ≠ [] then
      match matched[i]? with
      | some v => extractLoop matched rest (result.put name v)
      | none => Except.error Fault.indexOutOfRange
    else extractLoop matched rest result

/-- Lines 72 to 79: the field mapping `result` built from the content. -/
def extract (content : Str) : Except Fault StrMap :=
  extractLoop ((findStringSubmatch content).getD []) subexpNames.enum []

/-- The slice expression `r[a:]`, which faults unless `0 ≤ a ≤ len(r)`. -/
def sliceFrom (r : Str) (a : Int) : Except Fault Str :=
  if 0 ≤ a ∧ a ≤ r.length then Except.ok (r.drop a.toNat) else Except.error Fault.sliceBounds

/-- Lines 82 to 95: the action derived from the rule. -/
def deriveAction (r : Str) : Except Fault Str := do
  let l : Int := r.length
  let m ← sliceFrom r (l - 1)
  if m = "A".toList then pure "ACCEPT".toList
  else if m = "D".toList then pure "DROP".toList
  else if m = "R".toList then pure "REJECT".toList
  else pure "unknown".toList

/-- The decoded syslog message `logParts`, with the entries the loop reads. -/
structure LogParts where
  timestamp : Time
  hostname : Str
  client : Str
  priority : Int
  severity : Int
  tlsPeer : Str
  tag : Str
  facility : Int
  content : Str

/-- The arguments of `CreateSyslog`, which are the columns of a row of `dbo.Logs`
(`interfaceIn` and `interfaceOut` are the parameters `in` and `out`). -/
structure LogsRow where
  timestamp : Time
  hostname : Str
  client : Str
  priority : Int
  severity : Int
  tlsPeer : Str
  tag : Str
  facility : Int
  rule : Str
  action : Str
  interfaceIn : Str
  interfaceOut : Str
  mac : Str
  src : Str
  dst : Str
  proto : Str
  spt : Int
  dpt : Int

/-- The database behind the handle `db`: whether it answers the ping, the identity it
gives to its `n`-th insert, and the rows inserted so far with their identities. -/
structure Db where
  reachable : Bool
  ident : Nat → Int
  rows : List (Int × LogsRow)

/-- The errors `CreateSyslog` returns. -/
inductive DbError where
  /-- The handle `db` is nil. -/
  | dbIsNull
  /-- The database does not answer the ping (or the statement that follows). -/
  | unreachable
  deriving DecidableEq, Repr

/-- The function `CreateSyslog`: an error when the handle is nil or the database does
not answer, else one insert and the identity of the new row. -/
def CreateSyslog (db : Option Db) (row : LogsRow) : Except DbError (Int × Db) :=
  match db with
  | none => Except.error DbError.dbIsNull
  | some d =>
    if d.reachable then
      let newID := d.ident d.rows.length
      Except.ok (newID, { d with rows := d.rows ++ [(newID, row)] })
    else Except.error DbError.unreachable

/-- What one iteration of the loop does with the database. -/
inductive Outcome where
  /-- The guard `len(result) != 0` failed: nothing is done. -/
  | skipped
  /-- `CreateSyslog` was called with `row` and returned `createID`; `db` is the
  database afterwards. -/
  | inserted (row : LogsRow) (createID : Int) (db : Db)

/-- The row handed to `CreateSyslog` (lines 112 to 132). -/
def mkRow (zone : Location) (logParts : LogParts) (result : StrMap) (act : Str) : LogsRow :=
  { timestamp := setTimeZone zone logParts.timestamp
    hostname := logParts.hostname
    client := logParts.client
    priority := logParts.priority
    severity := logParts.severity
    tlsPeer := logParts.tlsPeer
    tag := logParts.tag
    facility := logParts.facility
    rule := result.get "rule".toList
    action := act
    interfaceIn := result.get "in".toList
    interfaceOut := result.get "out".toList
    mac := result.get "mac".toList
    src := result.get "src".toList
    dst := result.get "dst".toList
    proto := result.get "proto".toList
    spt := castToInt (result.get "spt".toList)
    dpt := castToInt (result.get "dpt".toList) }

/-- One iteration of the loop `for logParts := range channel` (lines 64 to 140). -/
def step (zone : Location) (db : Option Db) (logParts : LogParts) : Except Fault Outcome := do
  let result ← extract logParts.content
  if result.length ≠ 0 then
    let act ← deriveAction (result.get "rule".toList)
    match CreateSyslog db (mkRow zone logParts result act) with
    | Except.error _ => Except.error Fault.fatal
    | Except.ok (createID, db') =>
      pure (Outcome.inserted (mkRow zone logParts result act) createID db')
  else pure Outcome.skipped

/-- The loop over the messages received on the channel, in the order received: the
identities returned by `CreateSyslog` and the database at the end, or the fault that
stopped the program. -/
def pipeline (zone : Location) : Db → List LogParts → Except Fault (List Int × Db)
  | db, [] => Except.ok ([], db)
  | db, logParts :: rest =>
    match step zone (some db) logParts with
    | Except.error f => Except.error f
    | Except.ok Outcome.skipped => pipeline zone db rest
    | Except.ok (Outcome.inserted _ createID db') =>
      match pipeline zone db' rest with
      | Except.error f => Except.error f
      | Except.ok (ids, dbEnd) => Except.ok (createID :: ids, dbEnd)

/-! ## Auxiliary notions for the proofs -/

/-- The field mapping the extraction loop builds from the submatches `m`. -/
def fieldsOf (m : List Str) : StrMap :=
  [("rule".toList, m.getD 1 []), ("in".toList, m.getD 2 []), ("out".toList, m.getD 3 []),
    ("mac".toList, m.getD 4 []), ("src".toList, m.getD 5 []), ("dst".toList, m.getD 6 []),
    ("proto".toList, m.getD 7 []), ("ports".toList, m.getD 8 []), ("spt".toList, m.getD 9 []),
    ("dpt".toList, m.getD 10 [])]

/-- The action that belongs to the last character of a rule. -/
def lastCharAction (r : Str) : Str :=
  match r.getLast? with
  | some 'A' => "ACCEPT".toList
  | some 'D' => "DROP".toList
  | some 'R' => "REJECT".toList
  | _ => "unknown".toList

/-- The database after the insert of `row`. -/
def Db.insert (d : Db) (row : LogsRow) : Db :=
  { d with rows := d.rows ++ [(d.ident d.rows.length, row)] }

/-- The record the specification describes for an envelope, column by column: the
fields of the envelope, with the timestamp relabelled in the local zone (the instant
whose distance to the wall clock of the envelope's timestamp is the offset `time.Date`
resolves in that zone, same nanoseconds), and the fields parsed from the content:
submatch 1 as rule, the action of its last character, submatches 2 to 7 as in, out,
mac, src, dst and proto, and the integers read from submatches 9 and 10 as ports. -/
def recordOf (zone : Location) (envelope : LogParts) : LogsRow :=
  let m := (findStringSubmatch envelope.content).getD []
  { timestamp :=
      ⟨envelope.timestamp.wall - dateOffset zone envelope.timestamp.wall,
        envelope.timestamp.nsec, zone⟩
    hostname := envelope.hostname
    client := envelope.client
    priority := envelope.priority
    severity := envelope.severity
    tlsPeer := envelope.tlsPeer
    tag := envelope.tag
    facility := envelope.facility
    rule := m.getD 1 []
    action := lastCharAction (m.getD 1 [])
    interfaceIn := m.getD 2 []
    interfaceOut := m.getD 3 []
    mac := m.getD 4 []
    src := m.getD 5 []
    dst := m.getD 6 []
    proto := m.getD 7 []
    spt := castToInt (m.getD 9 [])
    dpt := castToInt (m.getD 10 []) }

/-- A location without transitions and with offset zero. -/
def utcZone : Location := Location.ofTransitions 0 []

/-- Central European time around 2021: one hour east of UTC until 2021-03-28 01:00 UTC,
two hours until 2021-10-31 01:00 UTC, one hour after. -/
def brusselsZone : Location :=
  Location.ofTransitions 3600 [(1616893200, 7200), (1635642000, 3600)]

/-- A database that answers and numbers its rows from one. -/
def exampleDb : Db := ⟨true, fun n => (n : Int) + 1, []⟩

/-- A decoded message with the given content. -/
def exampleParts (content : String) : LogParts :=
  { timestamp := ⟨1616898600, 0, utcZone⟩
    hostname := "fw1".toList
    client := "192.0.2.1:514".toList
    priority := 4
    severity := 4
    tlsPeer := []
    tag := "kernel".toList
    facility := 0
    content := content.toList }

/-- The literals that every match of an expression contains: those that are not under
a repetition. -/
def Regex.lits : Regex → List Str
  | Regex.lit l => [l]
  | Regex.cls _ => []
  | Regex.dot => []
  | Regex.seq a b => a.lits ++ b.lits
  | Regex.star _ _ => []
  | Regex.group _ r => r.lits

/-- A step that consumes exactly one character satisfying `p`. -/
def CharStep (p : Char → Bool) (step : Str → Caps → Cont → Option Caps) : Prop :=
  ∀ s c k, step s c k = match s with
    | x :: s' => if p x then k s' c else none
    | [] => none

/-- The text `t` does not start with a character satisfying `p`. -/
def Stops (p : Char → Bool) (t : Str) : Prop := ∀ y t', t = y :: t' → p y = false

/-- The literal `l` does not match at any position of `s`. -/
def NoHit (l s : Str) : Prop := ∀ t, t <:+ s → stripLit l t = none

/-- The text `SPT=<spt> DPT=<dpt>`. -/
def portsText (spt dpt : Str) : Str :=
  "SPT".toList ++ ("=".toList ++ (spt ++ (' ' :: ("DPT".toList ++ ("=".toList ++ dpt)))))

/-- The text `[<rule>] IN=<in> OUT=<out> MAC=<mac> SRC=<src> DST=<dst> PROTO=<proto>`
followed by `rest`, with single spaces. -/
def lineText (rule inn out mac src dst proto rest : Str) : Str :=
  "[".toList ++ (rule ++ ("]".toList ++ (' ' :: ("IN=".toList ++ (inn ++ (' ' ::
  ("OUT=".toList ++ (out ++ (' ' :: ("MAC=".toList ++ (mac ++ (' ' :: ("SRC=".toList ++
  (src ++ (' ' :: ("DST=".toList ++ (dst ++ (' ' :: ("PROTO=".toList ++
  (proto ++ rest))))))))))))))))))))

/-! ## Lemmas on the matcher -/

theorem stripLit_append (l t : Str) : stripLit l (l ++ t) = some t := by
  induction l with
  | nil => cases t <;> rfl
  | cons a l ih => simp [stripLit, ih]

theorem stripLit_eq_some {l s t : Str} (h : stripLit l s = some t) : s = l ++ t := by
  induction l generalizing s with
  | nil =>
    cases s <;> simp [stripLit] at h <;> simp [h]
  | cons a l ih =>
    cases s with
    | nil => simp [stripLit] at h
    | cons b s =>
      simp only [stripLit] at h
      split at h
      · next hab => rw [ih h, hab]; rfl
      · cases h

/-- A literal does not match in front of a text that reaches a separator `y` which does
not occur in the literal before a character `e` of the literal has been seen. -/
theorem stripLit_sep_none (l u rest : Str) (y e : Char) (hy : y ∉ l) (he : e ∈ l)
    (hu : e ∉ u) : stripLit l (u ++ y :: rest) = none := by
  cases h : stripLit l (u ++ y :: rest) with
  | none => rfl
  | some t =>
    exfalso
    have h1 := stripLit_eq_some h
    rcases List.append_eq_append_iff.mp h1 with ⟨a, ha, ha2⟩ | ⟨b, hb, _⟩
    · cases a with
      | nil =>
        apply hu
        simp at ha
        rw [← ha]
        exact he
      | cons z a =>
        simp at ha2
        apply hy
        rw [ha, ha2.1]
        simp
    · apply hu
      rw [hb]
      simp [he]

theorem charStep_cls (rs : List (Char × Char)) : CharStep (inClass rs) (matchRe (Regex.cls rs)) := by
  intro s c k
  cases s <;> rfl

theorem charStep_dot : CharStep (fun x => decide (x ≠ '\n')) (matchRe Regex.dot) := by
  intro s c k
  cases s with
  | nil => rfl
  | cons x s => simp [matchRe]

theorem charStep_lit (a : Char) : CharStep (fun x => decide (a = x)) (matchRe (Regex.lit [a])) := by
  intro s c k
  cases s with
  | nil => rfl
  | cons x s =>
    by_cases h : a = x
    · cases s <;> simp [matchRe, stripLit, h]
    · simp [matchRe, stripLit, h]

theorem stops_nil (p : Char → Bool) : Stops p [] := by
  intro y t' h
  cases h

theorem stops_cons {p : Char → Bool} {y : Char} (t : Str) (h : p y = false) : Stops p (y :: t) := by
  intro z t' hz
  cases hz
  exact h

theorem stops_of_all {p : Char → Bool} {t : Str} (h : ∀ x ∈ t, p x = false) : Stops p t := by
  intro y t' ht
  exact h y (by simp [ht])

theorem stops_append {p : Char → Bool} {xs t : Str} (hx : ∀ x ∈ xs, p x = false)
    (ht : Stops p t) : Stops p (xs ++ t) := by
  cases xs with
  | nil => exact ht
  | cons x xs => exact stops_cons _ (hx x (by simp))

/-- A greedy repetition of a one-character step takes a whole run of characters when
what follows the repetition matches after the run. -/
theorem matchStar_greedy_run {p : Char → Bool} {step : Str → Caps → Cont → Option Caps}
    (hs : CharStep p step) (xs t : Str) (c : Caps) (k : Cont) (v : Caps) (fuel : Nat)
    (hx : ∀ x ∈ xs, p x = true) (ht : Stops p t) (hf : xs.length ≤ fuel)
    (hk : k t c = some v) : matchStar step true fuel (xs ++ t) c k = some v := by
  induction xs generalizing fuel with
  | nil =>
    cases fuel with
    | zero => exact hk
    | succ n =>
      simp only [matchStar, List.nil_append, hs t]
      cases t with
      | nil => simpa using hk
      | cons y t' => simp [ht y t' rfl, hk]
  | cons x xs ih =>
    cases fuel with
    | zero => simp at hf
    | succ n =>
      have h1 := ih n (fun y hy => hx y (by simp [hy])) (by simpa using hf)
      simp only [matchStar, List.cons_append, hs (x :: (xs ++ t))]
      simp [hx x (by simp), h1]

/-- A lazy repetition stops at once when what follows it matches. -/
theorem matchStar_lazy_stop (step : Str → Caps → Cont → Option Caps) (fuel : Nat) (s : Str)
    (c : Caps) (k : Cont) (v : Caps) (hk : k s c = some v) :
    matchStar step false fuel s c k = some v := by
  cases fuel <;> simp [matchStar, hk]

/-- A lazy repetition of a one-character step goes on by one character when what
follows it does not match here. -/
theorem matchStar_lazy_more {p : Char → Bool} {step : Str → Caps → Cont → Option Caps}
    (hs : CharStep p step) (x : Char) (s : Str) (c : Caps) (k : Cont) (v : Caps) (fuel : Nat)
    (hx : p x = true) (h0 : k (x :: s) c = none) (hk : matchStar step false fuel s c k = some v) :
    matchStar step false (fuel + 1) (x :: s) c k = some v := by
  simp [matchStar, h0, hs (x :: s), hx, hk]

theorem matchRe_seq (a b : Regex) (s : Str) (c : Caps) (k : Cont) :
    matchRe (Regex.seq a b) s c k = matchRe a s c fun s' c' => matchRe b s' c' k := rfl

theorem matchRe_group (i : Nat) (r : Regex) (s : Str) (c : Caps) (k : Cont) :
    matchRe (Regex.group i r) s c k =
      matchRe r s c fun s' c' => k s' (c'.set i (some (s.take (s.length - s'.length)))) := rfl

theorem matchRe_star (g : Bool) (r : Regex) (s : Str) (c : Caps) (k : Cont) :
    matchRe (Regex.star g r) s c k = matchStar (matchRe r) g s.length s c k := rfl

theorem matchRe_lit_append (l t : Str) (c : Caps) (k : Cont) :
    matchRe (Regex.lit l) (l ++ t) c k = k t c := by
  simp [matchRe, stripLit_append]

theorem matchRe_lit_none (l s : Str) (c : Caps) (k : Cont) (h : stripLit l s = none) :
    matchRe (Regex.lit l) s c k = none := by
  simp [matchRe, h]

theorem take_run (xs t : Str) : (xs ++ t).take ((xs ++ t).length - t.length) = xs := by
  simp

/-- A greedy run of a class: `[...]*` in front of `xs ++ t`. -/
theorem matchRe_star_cls_run (rs : List (Char × Char)) (xs t : Str) (c : Caps) (k : Cont)
    (v : Caps) (hx : ∀ x ∈ xs, inClass rs x = true) (ht : Stops (inClass rs) t)
    (hk : k t c = some v) :
    matchRe (Regex.star true (Regex.cls rs)) (xs ++ t) c k = some v :=
  matchStar_greedy_run (charStep_cls rs) xs t c k v _ hx ht (by simp) hk

/-- A greedy `[...]*` in front of a text that does not start with a character of the
class matches the empty string. -/
theorem matchRe_star_cls_stop (rs : List (Char × Char)) (t : Str) (c : Caps) (k : Cont)
    (v : Caps) (ht : Stops (inClass rs) t) (hk : k t c = some v) :
    matchRe (Regex.star true (Regex.cls rs)) t c k = some v :=
  matchRe_star_cls_run rs [] t c k v (by simp) ht hk

/-- A greedy run of one literal character: `=*` in front of `xs ++ t`. -/
theorem matchRe_star_lit_run (a : Char) (xs t : Str) (c : Caps) (k : Cont)
    (v : Caps) (hx : ∀ x ∈ xs, x = a) (ht : Stops (fun x => decide (a = x)) t)
    (hk : k t c = some v) :
    matchRe (Regex.star true (Regex.lit [a])) (xs ++ t) c k = some v :=
  matchStar_greedy_run (charStep_lit a) xs t c k v _
    (fun x h => by simp [hx x h]) ht (by simp) hk

/-- A capturing group around a greedy run of a class captures the run. -/
theorem matchRe_group_run (i : Nat) (rs : List (Char × Char)) (xs t : Str) (c : Caps)
    (k : Cont) (v : Caps) (hx : ∀ x ∈ xs, inClass rs x = true) (ht : Stops (inClass rs) t)
    (hk : k t (c.set i (some xs)) = some v) :
    matchRe (Regex.group i (Regex.star true (Regex.cls rs))) (xs ++ t) c k = some v := by
  rw [matchRe_group]
  apply matchRe_star_cls_run rs xs t c _ v hx ht
  rw [take_run]
  exact hk

/-- The lazy `\s+?` takes one character of the class when what follows matches. -/
theorem matchRe_plus_lazy (rs : List (Char × Char)) (w : Char) (t : Str) (c : Caps)
    (k : Cont) (v : Caps) (hw : inClass rs w = true) (hk : k t c = some v) :
    matchRe (Regex.plus false (Regex.cls rs)) (w :: t) c k = some v := by
  simp only [Regex.plus, matchRe_seq, matchRe_star]
  rw [charStep_cls rs (w :: t)]
  simp only [hw, if_true]
  exact matchStar_lazy_stop _ _ _ _ _ _ hk

/-- The lazy `\s*?` takes one character of the class when what follows does not match
in front of it and matches after it. -/
theorem matchRe_star_lazy_one (rs : List (Char × Char)) (w : Char) (t : Str) (c : Caps)
    (k : Cont) (v : Caps) (hw : inClass rs w = true) (h0 : k (w :: t) c = none)
    (hk : k t c = some v) :
    matchRe (Regex.star false (Regex.cls rs)) (w :: t) c k = some v := by
  rw [matchRe_star]
  exact matchStar_lazy_more (charStep_cls rs) w t c k v _ hw h0
    (matchStar_lazy_stop _ _ _ _ _ _ hk)

theorem noHit_nil (a : Char) (l : Str) : NoHit (a :: l) [] := by
  intro t ht
  have : t = [] := List.eq_nil_of_suffix_nil ht
  subst this
  rfl

theorem noHit_cons {l s : Str} {x : Char} (h0 : stripLit l (x :: s) = none)
    (h : NoHit l s) : NoHit l (x :: s) := by
  intro t ht
  rcases List.suffix_cons_iff.mp ht with h1 | h1
  · rw [h1]; exact h0
  · exact h t h1

theorem stripLit_head_ne (a x : Char) (l s : Str) (h : x ≠ a) :
    stripLit (a :: l) (x :: s) = none := by
  simp [stripLit, Ne.symm h]

theorem noHit_append_ne {a : Char} {l xs t : Str} (hx : ∀ x ∈ xs, x ≠ a)
    (h : NoHit (a :: l) t) : NoHit (a :: l) (xs ++ t) := by
  induction xs with
  | nil => exact h
  | cons x xs ih =>
    exact noHit_cons (stripLit_head_ne a x l _ (hx x (by simp)))
      (ih fun y hy => hx y (by simp [hy]))

theorem noHit_run_sep {l u rest : Str} (y e : Char) (hy : y ∉ l) (he : e ∈ l)
    (hu : e ∉ u) (h : NoHit l (y :: rest)) : NoHit l (u ++ y :: rest) := by
  induction u with
  | nil => exact h
  | cons x u ih =>
    have hu' : e ∉ u := fun hh => hu (by simp [hh])
    exact noHit_cons (stripLit_sep_none l (x :: u) rest y e hy he hu) (ih hu')

theorem dotstar_none (l : Str) (b : Regex) (s : Str) (c : Caps) (k : Cont) (fuel : Nat)
    (h : NoHit l s) :
    matchStar (matchRe Regex.dot) true fuel s c
      (fun s' c' => matchRe (Regex.seq (Regex.lit l) b) s' c' k) = none := by
  induction fuel generalizing s with
  | zero =>
    simp only [matchStar, matchRe_seq]
    exact matchRe_lit_none _ _ _ _ (h s (List.suffix_refl s))
  | succ n ih =>
    have h0 : matchRe (Regex.seq (Regex.lit l) b) s c k = none := by
      rw [matchRe_seq]
      exact matchRe_lit_none _ _ _ _ (h s (List.suffix_refl s))
    simp only [matchStar, charStep_dot s]
    cases s with
    | nil => simpa using h0
    | cons x s =>
      have h1 := ih s fun t ht => h t (ht.trans (List.suffix_cons x s))
      simp [h1, h0]

/-- The greedy `.*` in front of a literal: when the literal occurs nowhere later in the
text, `.*` matches the empty string. -/
theorem matchRe_dotstar_lit (l : Str) (b : Regex) (rest : Str) (c : Caps) (k : Cont)
    (v : Caps) (hno : NoHit l (l ++ rest).tail) (hk : matchRe b rest c k = some v) :
    matchRe (Regex.seq (Regex.star true Regex.dot) (Regex.seq (Regex.lit l) b))
      (l ++ rest) c k = some v := by
  have h0 : matchRe (Regex.seq (Regex.lit l) b) (l ++ rest) c k = some v := by
    rw [matchRe_seq, matchRe_lit_append]
    exact hk
  rw [matchRe_seq, matchRe_star]
  generalize hs : l ++ rest = s at hno h0
  cases s with
  | nil => simpa [matchStar] using h0
  | cons x s =>
    simp only [List.length_cons, matchStar, charStep_dot (x :: s)]
    have h1 := dotstar_none l b s c k s.length hno
    simp [h1, h0]

/-- The group `ports` does not match the empty text, so `(...)*` stops there. -/
theorem matchStar_ports_nil (g : Bool) (fuel : Nat) (c : Caps) (k : Cont) :
    matchStar (matchRe rePorts) g fuel [] c k = k [] c := by
  cases fuel with
  | zero => rfl
  | succ n =>
    have h : ∀ k', matchRe rePorts [] c k' = none := fun k' => rfl
    cases g <;> simp [matchStar, h]

theorem matchRe_group_run_end (i : Nat) (rs : List (Char × Char)) (xs : Str) (c : Caps)
    (k : Cont) (v : Caps) (hx : ∀ x ∈ xs, inClass rs x = true)
    (hk : k [] (c.set i (some xs)) = some v) :
    matchRe (Regex.group i (Regex.star true (Regex.cls rs))) xs c k = some v := by
  have h := matchRe_group_run i rs xs [] c k v hx (stops_nil _) hk
  simpa using h

theorem digit_ne_eq {x : Char} (h : inClass [('0', '9')] x = true) : decide ('=' = x) = false := by
  simp only [decide_eq_false_iff_not]
  intro hx
  subst hx
  revert h
  decide

theorem matchRe_ports_once (spt dpt : Str) (c : Caps) (k : Cont) (v : Caps)
    (hs : ∀ x ∈ spt, inClass [('0', '9')] x = true)
    (hd : ∀ x ∈ dpt, inClass [('0', '9')] x = true)
    (hk : k [] (((c.set 9 (some spt)).set 10 (some dpt)).set 8 (some (portsText spt dpt)))
      = some v) :
    matchRe (Regex.star true rePorts) (portsText spt dpt) c k = some v := by
  rw [matchRe_star]
  have hlen : (portsText spt dpt).length = (spt.length + dpt.length + 8) + 1 := by
    simp [portsText]
    omega
  rw [hlen]
  generalize spt.length + dpt.length + 8 = n
  rw [matchStar]
  have hmore : matchRe rePorts (portsText spt dpt) c (fun s' c' =>
      if s'.length < (portsText spt dpt).length then
        matchStar (matchRe rePorts) true n s' c' k
      else none) = some v := by
    rw [rePorts, matchRe_group]
    simp only [Regex.seqs, matchRe_seq]
    rw [portsText, matchRe_lit_append]
    apply matchRe_star_lit_run '=' "=".toList _ _ _ _ (by decide)
    · exact stops_append (fun x hx => digit_ne_eq (hs x hx)) (stops_cons _ (by decide))
    apply matchRe_group_run 9 _ spt _ _ _ _ hs (stops_cons _ (by decide))
    apply matchRe_plus_lazy _ ' ' _ _ _ _ (by decide)
    rw [matchRe_lit_append]
    apply matchRe_star_lit_run '=' "=".toList _ _ _ _ (by decide)
    · exact stops_of_all fun x hx => digit_ne_eq (hd x hx)
    apply matchRe_group_run_end 10 _ dpt _ _ _ hd
    simp only [List.length_nil, Nat.sub_zero, List.take_length]
    rw [if_pos (by simp)]
    exact (matchStar_ports_nil true n _ k).trans hk
  simp [hmore]

theorem space_not_alpha {w : Char} (h : inClass [('\t', '\n'), ('\x0c', '\r'), (' ', ' ')] w = true) :
    inClass [('A', 'Z'), ('a', 'z')] w = false := by
  simp [inClass] at h ⊢
  omega

theorem space_not_in_proto {w : Char}
    (h : inClass [('\t', '\n'), ('\x0c', '\r'), (' ', ' ')] w = true) : w ∉ "PROTO=".toList := by
  intro hm
  simp at hm
  rcases hm with h1 | h1 | h1 | h1 | h1 | h1 <;> subst h1 <;> revert h <;> decide

theorem alpha_ne_eq {x : Char} (h : inClass [('A', 'Z'), ('a', 'z')] x = true) : x ≠ '=' := by
  intro hx
  subst hx
  revert h
  decide

/-- The literal `PROTO=` occurs only at the front of `PROTO=<proto>` followed by a
separator and a text in which it does not occur. -/
theorem noHit_proto (proto rest : Str) (w : Char)
    (hp : ∀ x ∈ proto, inClass [('A', 'Z'), ('a', 'z')] x = true)
    (hw : inClass [('\t', '\n'), ('\x0c', '\r'), (' ', ' ')] w = true)
    (hrest : NoHit "PROTO=".toList (w :: rest)) :
    NoHit "PROTO=".toList ("PROTO=".toList ++ (proto ++ w :: rest)).tail := by
  have h1 : NoHit "PROTO=".toList (proto ++ w :: rest) :=
    noHit_run_sep w '=' (space_not_in_proto hw) (by decide)
      (fun hh => alpha_ne_eq (hp _ hh) rfl) hrest
  exact @noHit_append_ne 'P' "ROTO=".toList "ROTO=".toList _ (by decide) h1

theorem matchRe_line (rule inn out mac src dst proto rest : Str) (w : Char) (c : Caps)
    (k : Cont) (v : Caps)
    (hrule : ∀ x ∈ rule, inClass [('0', '9'), ('A', 'Z'), ('a', 'z'), ('_', '_'), ('-', '-')] x = true)
    (hinn : ∀ x ∈ inn, inClass [('0', '9'), ('A', 'Z'), ('a', 'z')] x = true)
    (hout : ∀ x ∈ out, inClass [('0', '9'), ('A', 'Z'), ('a', 'z')] x = true)
    (hmac : ∀ x ∈ mac,
      inClass [('0', '9'), ('A', 'Z'), ('a', 'z'), (':', ':'), ('_', '_'), ('-', '-')] x = true)
    (hsrc : ∀ x ∈ src, inClass [('0', '9'), ('A', 'Z'), ('a', 'z'), ('.', '.')] x = true)
    (hdst : ∀ x ∈ dst, inClass [('0', '9'), ('A', 'Z'), ('a', 'z'), ('.', '.')] x = true)
    (hproto : ∀ x ∈ proto, inClass [('A', 'Z'), ('a', 'z')] x = true)
    (hw : inClass [('\t', '\n'), ('\x0c', '\r'), (' ', ' ')] w = true)
    (hrest : NoHit "PROTO=".toList (w :: rest))
    (hk : matchRe (Regex.star true rePorts) rest
      (((((((c.set 1 (some rule)).set 2 (some inn)).set 3 (some out)).set 4 (some mac)).set 5
        (some src)).set 6 (some dst)).set 7 (some proto)) k = some v) :
    matchRe myExpBody (lineText rule inn out mac src dst proto (w :: rest)) c k = some v := by
  rw [myExpBody]
  simp only [Regex.seqs]
  rw [matchRe_seq, lineText]
  refine matchRe_star_cls_stop _ _ _ _ _ ?_ ?_
  · exact stops_cons _ (by decide)
  rw [matchRe_seq, matchRe_lit_append, matchRe_seq]
  refine matchRe_group_run 1 _ rule _ _ _ _ hrule ?_ ?_
  · exact stops_cons _ (by decide)
  rw [matchRe_seq, matchRe_lit_append, matchRe_seq]
  apply matchRe_star_lazy_one _ ' ' _ _ _ _ (by decide) (by rfl)
  rw [matchRe_seq, matchRe_lit_append, matchRe_seq]
  refine matchRe_group_run 2 _ inn _ _ _ _ hinn ?_ ?_
  · exact stops_cons _ (by decide)
  rw [matchRe_seq]
  apply matchRe_plus_lazy _ ' ' _ _ _ _ (by decide)
  rw [matchRe_seq, matchRe_lit_append, matchRe_seq]
  refine matchRe_group_run 3 _ out _ _ _ _ hout ?_ ?_
  · exact stops_cons _ (by decide)
  rw [matchRe_seq]
  apply matchRe_plus_lazy _ ' ' _ _ _ _ (by decide)
  rw [matchRe_seq, matchRe_lit_append, matchRe_seq]
  refine matchRe_group_run 4 _ mac _ _ _ _ hmac ?_ ?_
  · exact stops_cons _ (by decide)
  rw [matchRe_seq]
  apply matchRe_plus_lazy _ ' ' _ _ _ _ (by decide)
  rw [matchRe_seq, matchRe_lit_append, matchRe_seq]
  refine matchRe_group_run 5 _ src _ _ _ _ hsrc ?_ ?_
  · exact stops_cons _ (by decide)
  rw [matchRe_seq]
  apply matchRe_plus_lazy _ ' ' _ _ _ _ (by decide)
  rw [matchRe_seq, matchRe_lit_append, matchRe_seq]
  refine matchRe_group_run 6 _ dst _ _ _ _ hdst ?_ ?_
  · exact stops_cons _ (by decide)
  rw [matchRe_seq]
  apply matchRe_plus_lazy _ ' ' _ _ _ _ (by decide)
  apply matchRe_dotstar_lit _ _ _ _ _ _ (noHit_proto proto rest w hproto hw hrest)
  rw [matchRe_seq]
  apply matchRe_group_run 7 _ proto _ _ _ _ hproto (stops_cons _ (space_not_alpha hw))
  rw [matchRe_seq]
  apply matchRe_plus_lazy _ w _ _ _ _ hw
  exact hk

theorem search_of_match (re : Regex) (n : Nat) (s : Str) (v : Caps)
    (h : matchRe re s (List.replicate n none) (fun _ c => some c) = some v) :
    search re n s = some v := by
  cases s <;> simp [search, h]

theorem inClass_alnum {x : Char} (h : x.isAlphanum = true) :
    inClass [('0', '9'), ('A', 'Z'), ('a', 'z')] x = true := by
  simp [Char.isAlphanum, Char.isAlpha, Char.isUpper, Char.isLower, Char.isDigit, inClass,
    Char.toNat, UInt32.le_def, UInt32.size, UInt32.toNat, BitVec.le_def] at h ⊢
  omega

theorem inClass_alpha {x : Char} (h : x.isAlpha = true) :
    inClass [('A', 'Z'), ('a', 'z')] x = true := by
  simp [Char.isAlpha, Char.isUpper, Char.isLower, inClass,
    Char.toNat, UInt32.le_def, UInt32.size, UInt32.toNat, BitVec.le_def] at h ⊢
  omega

theorem inClass_digit {x : Char} (h : x.isDigit = true) : inClass [('0', '9')] x = true := by
  simp [Char.isDigit, inClass,
    Char.toNat, UInt32.le_def, UInt32.size, UInt32.toNat, BitVec.le_def] at h ⊢
  omega

theorem inClass_rule {x : Char} (h : x.isAlphanum = true ∨ x = '_' ∨ x = '-') :
    inClass [('0', '9'), ('A', 'Z'), ('a', 'z'), ('_', '_'), ('-', '-')] x = true := by
  rcases h with h | h | h
  · have := inClass_alnum h
    simp [inClass] at this ⊢
    omega
  · subst h; decide
  · subst h; decide

theorem inClass_mac {x : Char} (h : x.isAlphanum = true ∨ x = ':' ∨ x = '_' ∨ x = '-') :
    inClass [('0', '9'), ('A', 'Z'), ('a', 'z'), (':', ':'), ('_', '_'), ('-', '-')] x = true := by
  rcases h with h | h | h | h
  · have := inClass_alnum h
    simp [inClass] at this ⊢
    omega
  · subst h; decide
  · subst h; decide
  · subst h; decide

theorem inClass_addr {x : Char} (h : x.isAlphanum = true ∨ x = '.') :
    inClass [('0', '9'), ('A', 'Z'), ('a', 'z'), ('.', '.')] x = true := by
  rcases h with h | h
  · have := inClass_alnum h
    simp [inClass] at this ⊢
    omega
  · subst h; decide

theorem noHit_portsText (spt dpt : Str)
    (hs : ∀ x ∈ spt, inClass [('0', '9')] x = true)
    (hd : ∀ x ∈ dpt, inClass [('0', '9')] x = true) :
    NoHit "PROTO=".toList (' ' :: portsText spt dpt) := by
  have digit_ne : ∀ x, inClass [('0', '9')] x = true → x ≠ 'P' := by
    intro x h hx
    subst hx
    revert h
    decide
  have h1 : NoHit "PROTO=".toList dpt := by
    have := noHit_append_ne (l := "ROTO=".toList) (t := []) (fun x hx => digit_ne x (hd x hx))
      (noHit_nil _ _)
    simpa using this
  have h2 : NoHit "PROTO=".toList (' ' :: ("DPT".toList ++ ("=".toList ++ dpt))) :=
    noHit_cons rfl (noHit_cons rfl (noHit_cons rfl (noHit_cons rfl (noHit_cons rfl h1))))
  have h3 : NoHit "PROTO=".toList (spt ++ ' ' :: ("DPT".toList ++ ("=".toList ++ dpt))) :=
    noHit_append_ne (l := "ROTO=".toList) (fun x hx => digit_ne x (hs x hx)) h2
  exact noHit_cons rfl (noHit_cons rfl (noHit_cons rfl (noHit_cons rfl (noHit_cons rfl h3))))

/-- The submatches of a line with all nine fields. -/
theorem findSubmatchCaps_full_line (rule inn out mac src dst proto spt dpt : Str)
    (hrule : ∀ x ∈ rule, inClass [('0', '9'), ('A', 'Z'), ('a', 'z'), ('_', '_'), ('-', '-')] x = true)
    (hinn : ∀ x ∈ inn, inClass [('0', '9'), ('A', 'Z'), ('a', 'z')] x = true)
    (hout : ∀ x ∈ out, inClass [('0', '9'), ('A', 'Z'), ('a', 'z')] x = true)
    (hmac : ∀ x ∈ mac,
      inClass [('0', '9'), ('A', 'Z'), ('a', 'z'), (':', ':'), ('_', '_'), ('-', '-')] x = true)
    (hsrc : ∀ x ∈ src, inClass [('0', '9'), ('A', 'Z'), ('a', 'z'), ('.', '.')] x = true)
    (hdst : ∀ x ∈ dst, inClass [('0', '9'), ('A', 'Z'), ('a', 'z'), ('.', '.')] x = true)
    (hproto : ∀ x ∈ proto, inClass [('A', 'Z'), ('a', 'z')] x = true)
    (hspt : ∀ x ∈ spt, inClass [('0', '9')] x = true)
    (hdpt : ∀ x ∈ dpt, inClass [('0', '9')] x = true) :
    findSubmatchCaps (lineText rule inn out mac src dst proto (' ' :: portsText spt dpt)) =
      some [some (lineText rule inn out mac src dst proto (' ' :: portsText spt dpt)),
        some rule, some inn, some out, some mac, some src, some dst, some proto,
        some (portsText spt dpt), some spt, some dpt] := by
  apply search_of_match
  rw [myExp, matchRe_group]
  apply matchRe_line rule inn out mac src dst proto (portsText spt dpt) ' ' _ _ _
    hrule hinn hout hmac hsrc hdst hproto (by decide) (noHit_portsText spt dpt hspt hdpt)
  apply matchRe_ports_once spt dpt _ _ _ hspt hdpt
  simp [subexpNames]

/-! ## What every match has -/

theorem orElse_eq_some {α : Type} {a b : Option α} {v : α} (h : (a <|> b) = some v) :
    a = some v ∨ b = some v := by
  cases a with
  | none => right; simpa using h
  | some x => left; simpa using h

/-- The continuation of a repetition is reached on a suffix of the input, with as many
submatch entries as before. -/
theorem matchStar_sound (step : Str → Caps → Cont → Option Caps) (g : Bool)
    (hstep : ∀ s c k v, step s c k = some v →
      ∃ s' c', s' <:+ s ∧ c'.length = c.length ∧ k s' c' = some v)
    (fuel : Nat) (s : Str) (c : Caps) (k : Cont) (v : Caps)
    (h : matchStar step g fuel s c k = some v) :
    ∃ s' c', s' <:+ s ∧ c'.length = c.length ∧ k s' c' = some v := by
  induction fuel generalizing s c with
  | zero => exact ⟨s, c, List.suffix_refl s, rfl, h⟩
  | succ n ih =>
    rw [matchStar] at h
    have h' : step s c (fun s' c' =>
        if s'.length < s.length then matchStar step g n s' c' k else none) = some v ∨
        k s c = some v := by
      cases g
      · exact (orElse_eq_some h).symm
      · exact orElse_eq_some h
    rcases h' with h1 | h1
    · obtain ⟨s1, c1, hs1, hc1, hk1⟩ := hstep _ _ _ _ h1
      by_cases hlt : s1.length < s.length
      · rw [if_pos hlt] at hk1
        obtain ⟨s2, c2, hs2, hc2, hk2⟩ := ih s1 c1 hk1
        exact ⟨s2, c2, hs2.trans hs1, hc2.trans hc1, hk2⟩
      · rw [if_neg hlt] at hk1
        cases hk1
    · exact ⟨s, c, List.suffix_refl s, rfl, h1⟩

/-- When an expression matches, its continuation is reached on a suffix of the input,
with as many submatch entries as before, and the input contains every literal of the
expression that is not under a repetition. -/
theorem matchRe_sound (r : Regex) : ∀ (s : Str) (c : Caps) (k : Cont) (v : Caps),
    matchRe r s c k = some v →
      (∃ s' c', s' <:+ s ∧ c'.length = c.length ∧ k s' c' = some v) ∧
        ∀ l ∈ r.lits, l <:+: s := by
  induction r with
  | lit l =>
    intro s c k v h
    simp only [matchRe] at h
    cases hl : stripLit l s with
    | none => simp [hl] at h
    | some t =>
      simp only [hl] at h
      have hs := stripLit_eq_some hl
      refine ⟨⟨t, c, ?_, rfl, h⟩, ?_⟩
      · rw [hs]; exact List.suffix_append l t
      · intro l' hl'
        simp only [Regex.lits, List.mem_singleton] at hl'
        rw [hl', hs]
        exact (List.prefix_append l t).isInfix
  | cls rs =>
    intro s c k v h
    refine ⟨?_, by simp [Regex.lits]⟩
    cases s with
    | nil => simp [matchRe] at h
    | cons x s =>
      simp only [matchRe] at h
      split at h
      · exact ⟨s, c, List.suffix_cons x s, rfl, h⟩
      · cases h
  | dot =>
    intro s c k v h
    refine ⟨?_, by simp [Regex.lits]⟩
    cases s with
    | nil => simp [matchRe] at h
    | cons x s =>
      simp only [matchRe] at h
      split at h
      · exact ⟨s, c, List.suffix_cons x s, rfl, h⟩
      · cases h
  | seq a b iha ihb =>
    intro s c k v h
    rw [matchRe_seq] at h
    obtain ⟨⟨s1, c1, hs1, hc1, hk1⟩, hla⟩ := iha _ _ _ _ h
    obtain ⟨⟨s2, c2, hs2, hc2, hk2⟩, hlb⟩ := ihb _ _ _ _ hk1
    refine ⟨⟨s2, c2, hs2.trans hs1, hc2.trans hc1, hk2⟩, ?_⟩
    intro l hl
    simp only [Regex.lits, List.mem_append] at hl
    rcases hl with hl | hl
    · exact hla l hl
    · exact (hlb l hl).trans hs1.isInfix
  | star g r ih =>
    intro s c k v h
    refine ⟨?_, by simp [Regex.lits]⟩
    rw [matchRe_star] at h
    exact matchStar_sound (matchRe r) g (fun s c k v hh => (ih s c k v hh).1) _ s c k v h
  | group i r ih =>
    intro s c k v h
    rw [matchRe_group] at h
    obtain ⟨⟨s1, c1, hs1, hc1, hk1⟩, hl⟩ := ih _ _ _ _ h
    exact ⟨⟨s1, _, hs1, by simpa using hc1, hk1⟩, hl⟩

/-- A successful search is a match at some position. -/
theorem search_sound (re : Regex) (n : Nat) (s : Str) (v : Caps)
    (h : search re n s = some v) :
    ∃ t, t <:+ s ∧ matchRe re t (List.replicate n none) (fun _ c => some c) = some v := by
  induction s with
  | nil => exact ⟨[], List.suffix_refl _, h⟩
  | cons x s ih =>
    rw [search] at h
    rcases orElse_eq_some h with h1 | h1
    · exact ⟨x :: s, List.suffix_refl _, h1⟩
    · obtain ⟨t, ht, hm⟩ := ih h1
      exact ⟨t, ht.trans (List.suffix_cons x s), hm⟩

/-- A match of `myExp` has eleven submatch entries, and the content contains each of
the literals of the pattern. -/
theorem findSubmatchCaps_sound (content : Str) (caps : Caps)
    (h : findSubmatchCaps content = some caps) :
    caps.length = 11 ∧ ∀ l ∈ myExp.lits, l <:+: content := by
  obtain ⟨t, ht, hm⟩ := search_sound _ _ _ _ h
  obtain ⟨⟨s1, c1, _, hc1, hk1⟩, hl⟩ := matchRe_sound myExp _ _ _ _ hm
  constructor
  · simp only [Option.some.injEq] at hk1
    rw [← hk1, hc1]
    simp [subexpNames]
  · intro l hl'
    exact (hl l hl').trans ht.isInfix

/-! ## The loop body -/

theorem findStringSubmatch_length (content : Str) (m : List Str)
    (h : findStringSubmatch content = some m) : m.length = 11 := by
  simp only [findStringSubmatch, Option.map_eq_some'] at h
  obtain ⟨caps, hc, hm⟩ := h
  rw [← hm, List.length_map]
  exact (findSubmatchCaps_sound content caps hc).1

theorem extractLoop_eleven (a0 a1 a2 a3 a4 a5 a6 a7 a8 a9 a10 : Str) :
    extractLoop [a0, a1, a2, a3, a4, a5, a6, a7, a8, a9, a10] subexpNames.enum [] =
      Except.ok (fieldsOf [a0, a1, a2, a3, a4, a5, a6, a7, a8, a9, a10]) := by
  simp [extractLoop, subexpNames, List.enum, List.enumFrom, StrMap.put, fieldsOf]

/-- When the pattern matches, the loop fills `result` with one entry per named group. -/
theorem extract_of_match (content : Str) (m : List Str)
    (h : findStringSubmatch content = some m) : extract content = Except.ok (fieldsOf m) := by
  have hlen := findStringSubmatch_length content m h
  rw [extract, h, Option.getD_some]
  match m, hlen with
  | [a0, a1, a2, a3, a4, a5, a6, a7, a8, a9, a10], _ => exact extractLoop_eleven _ _ _ _ _ _ _ _ _ _ _

/-- When the pattern does not match, the loop faults at `match[1]`. -/
theorem extract_of_no_match (content : Str) (h : findStringSubmatch content = none) :
    extract content = Except.error Fault.indexOutOfRange := by
  rw [extract, h]
  rfl

theorem deriveAction_of_ne_nil (r : Str) (h : r ≠ []) :
    deriveAction r = Except.ok (lastCharAction r) := by
  obtain ⟨ini, x, rfl⟩ : ∃ ini x, r = ini ++ [x] :=
    ⟨r.dropLast, r.getLast h, (List.dropLast_append_getLast h).symm⟩
  have hs : sliceFrom (ini ++ [x]) (((ini ++ [x]).length : Int) - 1) = Except.ok [x] := by
    simp [sliceFrom]
  simp only [deriveAction, hs, lastCharAction, List.getLast?_append, List.getLast?_singleton]
  by_cases hA : x = 'A'
  · subst hA; rfl
  by_cases hD : x = 'D'
  · subst hD; rfl
  by_cases hR : x = 'R'
  · subst hR; rfl
  simp [hA, hD, hR, bind, Except.bind, pure, Except.pure]

/-- One iteration on a content that matches with a rule that is not empty, against a
database that answers: the row is inserted. -/
theorem step_of_match (zone : Location) (d : Db) (logParts : LogParts) (m : List Str)
    (h : findStringSubmatch logParts.content = some m) (hr : m.getD 1 [] ≠ [])
    (hd : d.reachable = true) :
    step zone (some d) logParts =
      Except.ok (Outcome.inserted (mkRow zone logParts (fieldsOf m) (lastCharAction (m.getD 1 [])))
        (d.ident d.rows.length)
        (d.insert (mkRow zone logParts (fieldsOf m) (lastCharAction (m.getD 1 []))))) := by
  have hget : StrMap.get (fieldsOf m) "rule".toList = m.getD 1 [] := rfl
  have hlen : (fieldsOf m).length ≠ 0 := by simp [fieldsOf]
  simp only [step, extract_of_match _ _ h, bind, Except.bind, if_pos hlen, hget,
    deriveAction_of_ne_nil _ hr, CreateSyslog, hd, if_true, pure, Except.pure, Db.insert]

/-! ## The claims -/

/-- C1, at the content `random kernel message with no firewall tags`: the pattern does
not match, `FindStringSubmatch` returns nil, and the loop that fills `result` faults
with an index out of range at `match[1]`; the iteration does not get to the guard
`len(result) != 0`, whatever the zone, the database and the rest of the message. -/
theorem step_no_match_faults (zone : Location) (db : Option Db) (logParts : LogParts) :
    findStringSubmatch "random kernel message with no firewall tags".toList = none ∧
      extract "random kernel message with no firewall tags".toList =
        Except.error Fault.indexOutOfRange ∧
      step zone db
        { logParts with content := "random kernel message with no firewall tags".toList } =
        Except.error Fault.indexOutOfRange := by
  have h : findStringSubmatch "random kernel message with no firewall tags".toList = none := by
    decide
  refine ⟨h, extract_of_no_match _ h, ?_⟩
  simp only [step, extract_of_no_match _ h, bind, Except.bind]

/-- C2, at the content
`[] IN=eth0 OUT= MAC=00:11:22:33:44:55 SRC=10.0.0.1 DST=10.0.0.2 PROTO=TCP SPT=1 DPT=2`:
the pattern matches with the empty rule, and the slice `r[l-1:]` with `l = 0` faults
with slice bounds out of range, whatever the zone, the database and the rest of the
message. -/
theorem step_empty_rule_faults (zone : Location) (db : Option Db) (logParts : LogParts) :
    (findStringSubmatch
        "[] IN=eth0 OUT= MAC=00:11:22:33:44:55 SRC=10.0.0.1 DST=10.0.0.2 PROTO=TCP SPT=1 DPT=2".toList).map
        (fun m => m.getD 1 ['?']) = some [] ∧
      deriveAction [] = Except.error Fault.sliceBounds ∧
      step zone db { logParts with content :=
        "[] IN=eth0 OUT= MAC=00:11:22:33:44:55 SRC=10.0.0.1 DST=10.0.0.2 PROTO=TCP SPT=1 DPT=2".toList } =
        Except.error Fault.sliceBounds := by
  have h : findStringSubmatch
      "[] IN=eth0 OUT= MAC=00:11:22:33:44:55 SRC=10.0.0.1 DST=10.0.0.2 PROTO=TCP SPT=1 DPT=2".toList =
      some (["[] IN=eth0 OUT= MAC=00:11:22:33:44:55 SRC=10.0.0.1 DST=10.0.0.2 PROTO=TCP SPT=1 DPT=2",
        "", "eth0", "", "00:11:22:33:44:55", "10.0.0.1", "10.0.0.2", "TCP", "SPT=1 DPT=2", "1",
        "2"].map String.toList) := by
    decide
  refine ⟨by rw [h]; rfl, rfl, ?_⟩
  simp only [step, extract_of_match _ _ h, bind, Except.bind]
  rfl

theorem fullLine_eq (rule inn out mac src dst proto spt dpt : Str) :
    "[".toList ++ rule ++ "] IN=".toList ++ inn ++ " OUT=".toList ++ out ++ " MAC=".toList ++ mac ++
      " SRC=".toList ++ src ++ " DST=".toList ++ dst ++ " PROTO=".toList ++ proto ++
      " SPT=".toList ++ spt ++ " DPT=".toList ++ dpt =
    lineText rule inn out mac src dst proto (' ' :: portsText spt dpt) := by
  simp [lineText, portsText]

/-- C3: a line `[<rule>] IN=<in> OUT=<out> MAC=<mac> SRC=<src> DST=<dst> PROTO=<proto>
SPT=<spt> DPT=<dpt>` with single spaces, whose values are over the character classes of
the pattern (each possibly empty), matches, and the loop maps `rule`, `in`, `out`,
`mac`, `src`, `dst`, `proto`, `spt` and `dpt` to exactly those nine values. -/
theorem extract_full_line (rule inn out mac src dst proto spt dpt : Str)
    (hrule : ∀ x ∈ rule, x.isAlphanum = true ∨ x = '_' ∨ x = '-')
    (hinn : ∀ x ∈ inn, x.isAlphanum = true)
    (hout : ∀ x ∈ out, x.isAlphanum = true)
    (hmac : ∀ x ∈ mac, x.isAlphanum = true ∨ x = ':' ∨ x = '_' ∨ x = '-')
    (hsrc : ∀ x ∈ src, x.isAlphanum = true ∨ x = '.')
    (hdst : ∀ x ∈ dst, x.isAlphanum = true ∨ x = '.')
    (hproto : ∀ x ∈ proto, x.isAlpha = true)
    (hspt : ∀ x ∈ spt, x.isDigit = true)
    (hdpt : ∀ x ∈ dpt, x.isDigit = true) :
    ∃ result : StrMap,
      extract ("[".toList ++ rule ++ "] IN=".toList ++ inn ++ " OUT=".toList ++ out ++
        " MAC=".toList ++ mac ++ " SRC=".toList ++ src ++ " DST=".toList ++ dst ++
        " PROTO=".toList ++ proto ++ " SPT=".toList ++ spt ++ " DPT=".toList ++ dpt) =
        Except.ok result ∧
      result.lookup "rule".toList = some rule ∧ result.lookup "in".toList = some inn ∧
      result.lookup "out".toList = some out ∧ result.lookup "mac".toList = some mac ∧
      result.lookup "src".toList = some src ∧ result.lookup "dst".toList = some dst ∧
      result.lookup "proto".toList = some proto ∧ result.lookup "spt".toList = some spt ∧
      result.lookup "dpt".toList = some dpt := by
  have hc := findSubmatchCaps_full_line rule inn out mac src dst proto spt dpt
    (fun x hx => inClass_rule (hrule x hx)) (fun x hx => inClass_alnum (hinn x hx))
    (fun x hx => inClass_alnum (hout x hx)) (fun x hx => inClass_mac (hmac x hx))
    (fun x hx => inClass_addr (hsrc x hx)) (fun x hx => inClass_addr (hdst x hx))
    (fun x hx => inClass_alpha (hproto x hx)) (fun x hx => inClass_digit (hspt x hx))
    (fun x hx => inClass_digit (hdpt x hx))
  rw [fullLine_eq]
  have hm : findStringSubmatch (lineText rule inn out mac src dst proto (' ' :: portsText spt dpt)) =
      some [lineText rule inn out mac src dst proto (' ' :: portsText spt dpt), rule, inn, out,
        mac, src, dst, proto, portsText spt dpt, spt, dpt] := by
    rw [findStringSubmatch, hc]
    rfl
  exact ⟨_, extract_of_match _ _ hm, rfl, rfl, rfl, rfl, rfl, rfl, rfl, rfl, rfl⟩

/-- The line of the first scenario of the specification gives rule `RULE-A`, in `eth0`,
out empty, mac `00:11:22:33:44:55`, src `10.0.0.1`, dst `10.0.0.2`, proto `TCP`, spt
`1234` and dpt `80`. -/
theorem extract_full_line_witness :
    ∃ result : StrMap,
      extract "[RULE-A] IN=eth0 OUT= MAC=00:11:22:33:44:55 SRC=10.0.0.1 DST=10.0.0.2 PROTO=TCP SPT=1234 DPT=80".toList =
        Except.ok result ∧
      result.lookup "rule".toList = some "RULE-A".toList ∧
      result.lookup "in".toList = some "eth0".toList ∧
      result.lookup "out".toList = some [] ∧
      result.lookup "mac".toList = some "00:11:22:33:44:55".toList ∧
      result.lookup "src".toList = some "10.0.0.1".toList ∧
      result.lookup "dst".toList = some "10.0.0.2".toList ∧
      result.lookup "proto".toList = some "TCP".toList ∧
      result.lookup "spt".toList = some "1234".toList ∧
      result.lookup "dpt".toList = some "80".toList :=
  extract_full_line "RULE-A".toList "eth0".toList [] "00:11:22:33:44:55".toList
    "10.0.0.1".toList "10.0.0.2".toList "TCP".toList "1234".toList "80".toList
    (by decide) (by decide) (by decide) (by decide) (by decide) (by decide) (by decide)
    (by decide) (by decide)

/-- C4, counterexample: for the rule `FW-X`, whose last character is none of `A`, `D`,
`R`, the action derived and handed to `CreateSyslog` is the string `unknown` in lower
case, which is not `UNKNOWN`. -/
theorem action_other_is_lowercase :
    deriveAction "FW-X".toList = Except.ok "unknown".toList ∧
      ∃ row createID db',
        step utcZone (some exampleDb) (exampleParts
          "[FW-X] IN=eth1 OUT=eth0 MAC=aa:bb:cc:dd:ee:ff SRC=192.168.1.5 DST=8.8.8.8 PROTO=TCP SPT=1 DPT=2") =
          Except.ok (Outcome.inserted row createID db') ∧
        row.rule = "FW-X".toList ∧ row.action = "unknown".toList ∧
        row.action ≠ "UNKNOWN".toList := by
  have h : findStringSubmatch (exampleParts
      "[FW-X] IN=eth1 OUT=eth0 MAC=aa:bb:cc:dd:ee:ff SRC=192.168.1.5 DST=8.8.8.8 PROTO=TCP SPT=1 DPT=2").content =
      some (["[FW-X] IN=eth1 OUT=eth0 MAC=aa:bb:cc:dd:ee:ff SRC=192.168.1.5 DST=8.8.8.8 PROTO=TCP SPT=1 DPT=2",
        "FW-X", "eth1", "eth0", "aa:bb:cc:dd:ee:ff", "192.168.1.5", "8.8.8.8", "TCP",
        "SPT=1 DPT=2", "1", "2"].map String.toList) := by
    decide
  refine ⟨rfl, _, _, _, step_of_match utcZone exampleDb _ _ h (by decide) rfl, rfl, rfl, ?_⟩
  decide

/-- C4, amended: for every rule that is not empty, the action derived is `ACCEPT` when
the last character of the rule is `A`, `DROP` when it is `D`, `REJECT` when it is `R`,
and the lower-case string `unknown` for any other last character; when the rule is the
one matched in the content of a message, that action is the action column of the row
handed to `CreateSyslog`. -/
theorem step_action_of_rule (zone : Location) (d : Db) (logParts : LogParts) (m : List Str)
    (r : Str) (hr : r ≠ []) (h : findStringSubmatch logParts.content = some m)
    (hm : m.getD 1 [] = r) (hd : d.reachable = true) :
    ∃ act : Str, deriveAction r = Except.ok act ∧
      (r.getLast? = some 'A' → act = "ACCEPT".toList) ∧
      (r.getLast? = some 'D' → act = "DROP".toList) ∧
      (r.getLast? = some 'R' → act = "REJECT".toList) ∧
      (r.getLast? ≠ some 'A' → r.getLast? ≠ some 'D' → r.getLast? ≠ some 'R' →
        act = "unknown".toList) ∧
      ∃ row createID db',
        step zone (some d) logParts = Except.ok (Outcome.inserted row createID db') ∧
        row.rule = r ∧ row.action = act := by
  subst hm
  refine ⟨lastCharAction (m.getD 1 []), deriveAction_of_ne_nil _ hr, ?_, ?_, ?_, ?_,
    _, _, _, step_of_match zone d logParts m h hr hd, rfl, rfl⟩
  · intro hl
    rw [lastCharAction, hl]
    rfl
  · intro hl
    rw [lastCharAction, hl]
    rfl
  · intro hl
    rw [lastCharAction, hl]
    rfl
  · intro hA hD hR
    unfold lastCharAction
    split <;> simp_all

/-- The rule `RULE-A` of the first scenario gives the action `ACCEPT`. -/
theorem step_action_of_rule_witness :
    ∃ act : Str, deriveAction "RULE-A".toList = Except.ok act ∧
      ("RULE-A".toList.getLast? = some 'A' → act = "ACCEPT".toList) ∧
      ("RULE-A".toList.getLast? = some 'D' → act = "DROP".toList) ∧
      ("RULE-A".toList.getLast? = some 'R' → act = "REJECT".toList) ∧
      ("RULE-A".toList.getLast? ≠ some 'A' → "RULE-A".toList.getLast? ≠ some 'D' →
        "RULE-A".toList.getLast? ≠ some 'R' → act = "unknown".toList) ∧
      ∃ row createID db',
        step utcZone (some exampleDb) (exampleParts
          "[RULE-A] IN=eth0 OUT= MAC=00:11:22:33:44:55 SRC=10.0.0.1 DST=10.0.0.2 PROTO=TCP SPT=1234 DPT=80") =
          Except.ok (Outcome.inserted row createID db') ∧
        row.rule = "RULE-A".toList ∧ row.action = act :=
  step_action_of_rule utcZone exampleDb _
    (["[RULE-A] IN=eth0 OUT= MAC=00:11:22:33:44:55 SRC=10.0.0.1 DST=10.0.0.2 PROTO=TCP SPT=1234 DPT=80",
      "RULE-A", "eth0", "", "00:11:22:33:44:55", "10.0.0.1", "10.0.0.2", "TCP",
      "SPT=1234 DPT=80", "1234", "80"].map String.toList)
    "RULE-A".toList (by decide) (by decide) rfl rfl

theorem inClass_space {w : Char} (h : w ∈ [' ', '\t', '\n', '\x0c', '\r']) :
    inClass [('\t', '\n'), ('\x0c', '\r'), (' ', ' ')] w = true := by
  simp only [List.mem_cons, List.mem_singleton, List.not_mem_nil, or_false] at h
  rcases h with h | h | h | h | h <;> subst h <;> decide

/-- The submatches of a line that ends one white space after the protocol. -/
theorem findSubmatchCaps_line_no_ports (rule inn out mac src dst proto : Str) (w : Char)
    (hrule : ∀ x ∈ rule, inClass [('0', '9'), ('A', 'Z'), ('a', 'z'), ('_', '_'), ('-', '-')] x = true)
    (hinn : ∀ x ∈ inn, inClass [('0', '9'), ('A', 'Z'), ('a', 'z')] x = true)
    (hout : ∀ x ∈ out, inClass [('0', '9'), ('A', 'Z'), ('a', 'z')] x = true)
    (hmac : ∀ x ∈ mac,
      inClass [('0', '9'), ('A', 'Z'), ('a', 'z'), (':', ':'), ('_', '_'), ('-', '-')] x = true)
    (hsrc : ∀ x ∈ src, inClass [('0', '9'), ('A', 'Z'), ('a', 'z'), ('.', '.')] x = true)
    (hdst : ∀ x ∈ dst, inClass [('0', '9'), ('A', 'Z'), ('a', 'z'), ('.', '.')] x = true)
    (hproto : ∀ x ∈ proto, inClass [('A', 'Z'), ('a', 'z')] x = true)
    (hw : inClass [('\t', '\n'), ('\x0c', '\r'), (' ', ' ')] w = true) :
    findSubmatchCaps (lineText rule inn out mac src dst proto [w]) =
      some [some (lineText rule inn out mac src dst proto [w]),
        some rule, some inn, some out, some mac, some src, some dst, some proto,
        none, none, none] := by
  have hwP : w ≠ 'P' := by
    intro hh
    subst hh
    revert hw
    decide
  apply search_of_match
  rw [myExp, matchRe_group]
  apply matchRe_line rule inn out mac src dst proto [] w _ _ _
    hrule hinn hout hmac hsrc hdst hproto hw
    (noHit_cons (stripLit_head_ne _ _ _ _ hwP) (noHit_nil _ _))
  rw [matchRe_star]
  refine (matchStar_ports_nil true _ _ _).trans ?_
  simp [subexpNames]

theorem shortLine_eq (rule inn out mac src dst proto : Str) (w : Char) :
    "[".toList ++ rule ++ "] IN=".toList ++ inn ++ " OUT=".toList ++ out ++ " MAC=".toList ++ mac ++
      " SRC=".toList ++ src ++ " DST=".toList ++ dst ++ " PROTO=".toList ++ proto ++ [w] =
    lineText rule inn out mac src dst proto [w] := by
  simp [lineText]

/-- C5, counterexample: the line of the third scenario, which ends directly after
`PROTO=ICMP`, does not match (the pattern asks for white space after the protocol), so
no parsed event is produced: the iteration faults at `match[1]`. -/
theorem line_ending_after_proto_no_match :
    findStringSubmatch
        "[FW-D] IN=eth1 OUT=eth0 MAC=aa:bb:cc:dd:ee:ff SRC=192.168.1.5 DST=8.8.8.8 PROTO=ICMP".toList =
        none ∧
      step utcZone (some exampleDb) (exampleParts
        "[FW-D] IN=eth1 OUT=eth0 MAC=aa:bb:cc:dd:ee:ff SRC=192.168.1.5 DST=8.8.8.8 PROTO=ICMP") =
        Except.error Fault.indexOutOfRange := by
  have h : findStringSubmatch
      "[FW-D] IN=eth1 OUT=eth0 MAC=aa:bb:cc:dd:ee:ff SRC=192.168.1.5 DST=8.8.8.8 PROTO=ICMP".toList =
      none := by
    decide
  refine ⟨h, ?_⟩
  simp only [step, exampleParts, extract_of_no_match _ h, bind, Except.bind]

/-- C5, amended: a line `[<rule>] IN=<in> OUT=<out> MAC=<mac> SRC=<src> DST=<dst>
PROTO=<proto>` that ends one white-space character after the protocol value, with
values over the character classes of the pattern and a rule that is not empty, matches,
and against a database that answers a row is handed to `CreateSyslog` whose rule, in,
out, mac, src, dst and proto are those values and whose action is derived from the
rule. -/
theorem step_line_without_ports (zone : Location) (d : Db) (logParts : LogParts)
    (rule inn out mac src dst proto : Str) (w : Char)
    (hrule : ∀ x ∈ rule, x.isAlphanum = true ∨ x = '_' ∨ x = '-')
    (hinn : ∀ x ∈ inn, x.isAlphanum = true)
    (hout : ∀ x ∈ out, x.isAlphanum = true)
    (hmac : ∀ x ∈ mac, x.isAlphanum = true ∨ x = ':' ∨ x = '_' ∨ x = '-')
    (hsrc : ∀ x ∈ src, x.isAlphanum = true ∨ x = '.')
    (hdst : ∀ x ∈ dst, x.isAlphanum = true ∨ x = '.')
    (hproto : ∀ x ∈ proto, x.isAlpha = true)
    (hw : w ∈ [' ', '\t', '\n', '\x0c', '\r'])
    (hne : rule ≠ [])
    (hc : logParts.content = "[".toList ++ rule ++ "] IN=".toList ++ inn ++ " OUT=".toList ++ out ++
      " MAC=".toList ++ mac ++ " SRC=".toList ++ src ++ " DST=".toList ++ dst ++
      " PROTO=".toList ++ proto ++ [w])
    (hd : d.reachable = true) :
    ∃ row createID db',
      step zone (some d) logParts = Except.ok (Outcome.inserted row createID db') ∧
      row.rule = rule ∧ row.interfaceIn = inn ∧ row.interfaceOut = out ∧ row.mac = mac ∧
      row.src = src ∧ row.dst = dst ∧ row.proto = proto ∧
      deriveAction rule = Except.ok row.action := by
  have hcaps := findSubmatchCaps_line_no_ports rule inn out mac src dst proto w
    (fun x hx => inClass_rule (hrule x hx)) (fun x hx => inClass_alnum (hinn x hx))
    (fun x hx => inClass_alnum (hout x hx)) (fun x hx => inClass_mac (hmac x hx))
    (fun x hx => inClass_addr (hsrc x hx)) (fun x hx => inClass_addr (hdst x hx))
    (fun x hx => inClass_alpha (hproto x hx)) (inClass_space hw)
  rw [shortLine_eq] at hc
  have hm : findStringSubmatch logParts.content =
      some [lineText rule inn out mac src dst proto [w], rule, inn, out,
        mac, src, dst, proto, [], [], []] := by
    rw [hc, findStringSubmatch, hcaps]
    rfl
  exact ⟨_, _, _, step_of_match zone d logParts _ hm hne hd, rfl, rfl, rfl, rfl, rfl, rfl, rfl,
    deriveAction_of_ne_nil _ hne⟩

/-- The line of the third scenario followed by one space: the row has the action
`DROP`. -/
theorem step_line_without_ports_witness :
    ∃ row createID db',
      step utcZone (some exampleDb) (exampleParts
        "[FW-D] IN=eth1 OUT=eth0 MAC=aa:bb:cc:dd:ee:ff SRC=192.168.1.5 DST=8.8.8.8 PROTO=ICMP ") =
        Except.ok (Outcome.inserted row createID db') ∧
      row.rule = "FW-D".toList ∧ row.interfaceIn = "eth1".toList ∧
      row.interfaceOut = "eth0".toList ∧ row.mac = "aa:bb:cc:dd:ee:ff".toList ∧
      row.src = "192.168.1.5".toList ∧ row.dst = "8.8.8.8".toList ∧
      row.proto = "ICMP".toList ∧ row.action = "DROP".toList := by
  obtain ⟨row, createID, db', h1, h2, h3, h4, h5, h6, h7, h8, h9⟩ :=
    step_line_without_ports utcZone exampleDb (exampleParts
      "[FW-D] IN=eth1 OUT=eth0 MAC=aa:bb:cc:dd:ee:ff SRC=192.168.1.5 DST=8.8.8.8 PROTO=ICMP ")
      "FW-D".toList "eth1".toList "eth0".toList "aa:bb:cc:dd:ee:ff".toList "192.168.1.5".toList
      "8.8.8.8".toList "ICMP".toList ' ' (by decide) (by decide) (by decide) (by decide)
      (by decide) (by decide) (by decide) (by decide) (by decide) (by decide) rfl
  have h10 : deriveAction "FW-D".toList = Except.ok "DROP".toList := rfl
  rw [h10] at h9
  exact ⟨row, createID, db', h1, h2, h3, h4, h5, h6, h7, h8, (Except.ok.inj h9).symm⟩

theorem getD_map_getD (caps : Caps) (i : Nat) :
    (caps.map fun o => o.getD []).getD i [] = (caps.getD i none).getD [] := by
  induction caps generalizing i with
  | nil => simp
  | cons a caps ih =>
    cases i with
    | zero => simp
    | succ n => simpa using ih n

theorem findStringSubmatch_of_caps (content : Str) (caps : Caps)
    (h : findSubmatchCaps content = some caps) :
    findStringSubmatch content = some (caps.map fun o => o.getD []) := by
  rw [findStringSubmatch, h]
  rfl

/-- C6, counterexample: for the content that ends in `PROTO=ICMP TYPE=8`, the row handed
to `CreateSyslog` has the integer 0 as `spt` and as `dpt`, and it is the same row as the
one for the packet logged with `SPT=0 DPT=0`. -/
theorem ports_absent_row_has_zero :
    ∃ row createID db' row0 createID0 db0,
      step utcZone (some exampleDb) (exampleParts
        "[FW-D] IN=eth1 OUT=eth0 MAC=aa:bb:cc:dd:ee:ff SRC=192.168.1.5 DST=8.8.8.8 PROTO=ICMP TYPE=8") =
        Except.ok (Outcome.inserted row createID db') ∧
      step utcZone (some exampleDb) (exampleParts
        "[FW-D] IN=eth1 OUT=eth0 MAC=aa:bb:cc:dd:ee:ff SRC=192.168.1.5 DST=8.8.8.8 PROTO=ICMP SPT=0 DPT=0") =
        Except.ok (Outcome.inserted row0 createID0 db0) ∧
      row.spt = 0 ∧ row.dpt = 0 ∧ row = row0 := by
  have h : findStringSubmatch (exampleParts
      "[FW-D] IN=eth1 OUT=eth0 MAC=aa:bb:cc:dd:ee:ff SRC=192.168.1.5 DST=8.8.8.8 PROTO=ICMP TYPE=8").content =
      some (["[FW-D] IN=eth1 OUT=eth0 MAC=aa:bb:cc:dd:ee:ff SRC=192.168.1.5 DST=8.8.8.8 PROTO=ICMP ",
        "FW-D", "eth1", "eth0", "aa:bb:cc:dd:ee:ff", "192.168.1.5", "8.8.8.8", "ICMP",
        "", "", ""].map String.toList) := by
    decide
  have h0 : findStringSubmatch (exampleParts
      "[FW-D] IN=eth1 OUT=eth0 MAC=aa:bb:cc:dd:ee:ff SRC=192.168.1.5 DST=8.8.8.8 PROTO=ICMP SPT=0 DPT=0").content =
      some (["[FW-D] IN=eth1 OUT=eth0 MAC=aa:bb:cc:dd:ee:ff SRC=192.168.1.5 DST=8.8.8.8 PROTO=ICMP SPT=0 DPT=0",
        "FW-D", "eth1", "eth0", "aa:bb:cc:dd:ee:ff", "192.168.1.5", "8.8.8.8", "ICMP",
        "SPT=0 DPT=0", "0", "0"].map String.toList) := by
    decide
  exact ⟨_, _, _, _, _, _, step_of_match utcZone exampleDb _ _ h (by decide) rfl,
    step_of_match utcZone exampleDb _ _ h0 (by decide) rfl, rfl, rfl, rfl⟩

/-- C6, amended: when the content matches without the groups `spt` and `dpt` taking
part (with a rule that is not empty, against a database that answers), the `spt` and
`dpt` handed to `CreateSyslog` are the integer 0: its parameters are plain integers,
there is no null. -/
theorem step_ports_absent (zone : Location) (d : Db) (logParts : LogParts) (caps : Caps)
    (h : findSubmatchCaps logParts.content = some caps)
    (h9 : caps.getD 9 none = none) (h10 : caps.getD 10 none = none)
    (hr : (caps.getD 1 none).getD [] ≠ []) (hd : d.reachable = true) :
    ∃ row createID db',
      step zone (some d) logParts = Except.ok (Outcome.inserted row createID db') ∧
      row.spt = 0 ∧ row.dpt = 0 := by
  have hm := findStringSubmatch_of_caps _ _ h
  have hr' : (caps.map fun o => o.getD []).getD 1 [] ≠ [] := by
    rw [getD_map_getD]
    exact hr
  refine ⟨_, _, _, step_of_match zone d logParts _ hm hr' hd, ?_, ?_⟩
  · show castToInt ((caps.map fun o => o.getD []).getD 9 []) = 0
    rw [getD_map_getD, h9]
    rfl
  · show castToInt ((caps.map fun o => o.getD []).getD 10 []) = 0
    rw [getD_map_getD, h10]
    rfl

/-- The content that ends in `PROTO=ICMP TYPE=8` gives a row with `spt` and `dpt` 0. -/
theorem step_ports_absent_witness :
    ∃ row createID db',
      step utcZone (some exampleDb) (exampleParts
        "[FW-D] IN=eth1 OUT=eth0 MAC=aa:bb:cc:dd:ee:ff SRC=192.168.1.5 DST=8.8.8.8 PROTO=ICMP TYPE=8") =
        Except.ok (Outcome.inserted row createID db') ∧
      row.spt = 0 ∧ row.dpt = 0 :=
  step_ports_absent utcZone exampleDb _
    [some "[FW-D] IN=eth1 OUT=eth0 MAC=aa:bb:cc:dd:ee:ff SRC=192.168.1.5 DST=8.8.8.8 PROTO=ICMP ".toList,
      some "FW-D".toList, some "eth1".toList, some "eth0".toList,
      some "aa:bb:cc:dd:ee:ff".toList, some "192.168.1.5".toList, some "8.8.8.8".toList,
      some "ICMP".toList, none, none, none]
    (by decide) rfl rfl (by decide) rfl

theorem lookup_isSome_iff (l : StrMap) (name : Str) :
    (l.lookup name).isSome = true ↔ name ∈ l.map Prod.fst := by
  induction l with
  | nil => simp
  | cons p l ih =>
    obtain ⟨k, v⟩ := p
    by_cases hk : name = k
    · subst hk
      simp [List.lookup]
    · have hb : (name == k) = false := by simpa using hk
      simp [List.lookup, hb, ih, hk]

/-- C7, counterexample: for the content that ends in `PROTO=ICMP TYPE=8` the groups
`ports`, `spt` and `dpt` do not take part in the match, and the mapping has an entry
for each of them, with the empty string as value. -/
theorem absent_groups_have_empty_entries :
    ∃ caps result,
      findSubmatchCaps
        "[FW-D] IN=eth1 OUT=eth0 MAC=aa:bb:cc:dd:ee:ff SRC=192.168.1.5 DST=8.8.8.8 PROTO=ICMP TYPE=8".toList =
        some caps ∧
      caps.getD 8 (some []) = none ∧ caps.getD 9 (some []) = none ∧
      caps.getD 10 (some []) = none ∧
      extract
        "[FW-D] IN=eth1 OUT=eth0 MAC=aa:bb:cc:dd:ee:ff SRC=192.168.1.5 DST=8.8.8.8 PROTO=ICMP TYPE=8".toList =
        Except.ok result ∧
      result.lookup "ports".toList = some [] ∧ result.lookup "spt".toList = some [] ∧
      result.lookup "dpt".toList = some [] := by
  have h : findSubmatchCaps
      "[FW-D] IN=eth1 OUT=eth0 MAC=aa:bb:cc:dd:ee:ff SRC=192.168.1.5 DST=8.8.8.8 PROTO=ICMP TYPE=8".toList =
      some [some "[FW-D] IN=eth1 OUT=eth0 MAC=aa:bb:cc:dd:ee:ff SRC=192.168.1.5 DST=8.8.8.8 PROTO=ICMP ".toList,
        some "FW-D".toList, some "eth1".toList, some "eth0".toList,
        some "aa:bb:cc:dd:ee:ff".toList, some "192.168.1.5".toList, some "8.8.8.8".toList,
        some "ICMP".toList, none, none, none] := by
    decide
  exact ⟨_, _, h, rfl, rfl, rfl, extract_of_match _ _ (findStringSubmatch_of_caps _ _ h),
    rfl, rfl, rfl⟩

/-- C7, amended: for every content that matches, the mapping has an entry for each of
the ten named groups `rule`, `in`, `out`, `mac`, `src`, `dst`, `proto`, `ports`, `spt`,
`dpt` and for no other name; the entry of a group that took part is the text it
matched, the entry of a group that did not take part is the empty string. -/
theorem extract_has_every_group (content : Str) (caps : Caps)
    (h : findSubmatchCaps content = some caps) :
    ∃ result : StrMap, extract content = Except.ok result ∧
      (∀ name, (result.lookup name).isSome = true ↔ name ∈ subexpNames.tail) ∧
      (∀ i v, 1 ≤ i → i ≤ 10 → caps.getD i none = some v →
        result.lookup (subexpNames.getD i []) = some v) ∧
      (∀ i, 1 ≤ i → i ≤ 10 → caps.getD i none = none →
        result.lookup (subexpNames.getD i []) = some []) := by
  have hm := findStringSubmatch_of_caps _ _ h
  have key : ∀ i, 1 ≤ i → i ≤ 10 →
      (fieldsOf (caps.map fun o => o.getD [])).lookup (subexpNames.getD i []) =
        some ((caps.getD i none).getD []) := by
    intro i h1 h2
    rw [← getD_map_getD]
    interval_cases i <;> rfl
  refine ⟨_, extract_of_match _ _ hm, ?_, ?_, ?_⟩
  · intro name
    rw [lookup_isSome_iff]
    rfl
  · intro i v h1 h2 hv
    rw [key i h1 h2, hv]
    rfl
  · intro i h1 h2 hv
    rw [key i h1 h2, hv]
    rfl

/-- The content that ends in `PROTO=ICMP TYPE=8`: ten entries, those of `ports`, `spt`
and `dpt` empty. -/
theorem extract_has_every_group_witness :
    ∃ result : StrMap,
      extract
        "[FW-D] IN=eth1 OUT=eth0 MAC=aa:bb:cc:dd:ee:ff SRC=192.168.1.5 DST=8.8.8.8 PROTO=ICMP TYPE=8".toList =
        Except.ok result ∧
      (∀ name, (result.lookup name).isSome = true ↔ name ∈ subexpNames.tail) ∧
      (∀ i v, 1 ≤ i → i ≤ 10 →
        [some "[FW-D] IN=eth1 OUT=eth0 MAC=aa:bb:cc:dd:ee:ff SRC=192.168.1.5 DST=8.8.8.8 PROTO=ICMP ".toList,
          some "FW-D".toList, some "eth1".toList, some "eth0".toList,
          some "aa:bb:cc:dd:ee:ff".toList, some "192.168.1.5".toList, some "8.8.8.8".toList,
          some "ICMP".toList, none, none, none].getD i none = some v →
        result.lookup (subexpNames.getD i []) = some v) ∧
      (∀ i, 1 ≤ i → i ≤ 10 →
        [some "[FW-D] IN=eth1 OUT=eth0 MAC=aa:bb:cc:dd:ee:ff SRC=192.168.1.5 DST=8.8.8.8 PROTO=ICMP ".toList,
          some "FW-D".toList, some "eth1".toList, some "eth0".toList,
          some "aa:bb:cc:dd:ee:ff".toList, some "192.168.1.5".toList, some "8.8.8.8".toList,
          some "ICMP".toList, none, none, none].getD i none = none →
        result.lookup (subexpNames.getD i []) = some []) :=
  extract_has_every_group _ _ (by decide)

theorem step_of_no_match (zone : Location) (db : Option Db) (logParts : LogParts)
    (h : findStringSubmatch logParts.content = none) :
    step zone db logParts = Except.error Fault.indexOutOfRange := by
  simp only [step, extract_of_no_match _ h, bind, Except.bind]

/-- C8: when the content lacks one of the substrings `IN=`, `OUT=`, `MAC=`, `SRC=`,
`DST=`, `PROTO=`, the pattern matches nowhere in the content, and the iteration inserts
no row: it ends at `match[1]`, before `CreateSyslog` is reached. -/
theorem no_record_without_token (content tok : Str)
    (htok : tok ∈ ["IN=", "OUT=", "MAC=", "SRC=", "DST=", "PROTO="].map String.toList)
    (hno : ¬ tok <:+: content) (zone : Location) (db : Option Db) (logParts : LogParts)
    (hc : logParts.content = content) :
    findStringSubmatch content = none ∧
      (∀ row createID db', step zone db logParts ≠ Except.ok (Outcome.inserted row createID db')) ∧
      step zone db logParts = Except.error Fault.indexOutOfRange := by
  have hnone : findSubmatchCaps content = none := by
    cases hcaps : findSubmatchCaps content with
    | none => rfl
    | some caps =>
      exfalso
      apply hno
      apply (findSubmatchCaps_sound content caps hcaps).2
      have hl : myExp.lits =
          ["[", "]", "IN=", "OUT=", "MAC=", "SRC=", "DST=", "PROTO="].map String.toList := rfl
      rw [hl]
      simp only [List.map, List.mem_cons, List.mem_singleton, List.not_mem_nil, or_false] at htok ⊢
      tauto
  have hm : findStringSubmatch content = none := by
    rw [findStringSubmatch, hnone]
    rfl
  have hs := step_of_no_match zone db logParts (hc ▸ hm)
  refine ⟨hm, ?_, hs⟩
  intro row createID db' hh
  rw [hs] at hh
  cases hh

/-- A line without `MAC=` gives no row. -/
theorem no_record_without_token_witness :
    findStringSubmatch
        "[FW-D] IN=eth1 OUT=eth0 SRC=192.168.1.5 DST=8.8.8.8 PROTO=ICMP TYPE=8".toList = none ∧
      (∀ row createID db',
        step utcZone (some exampleDb) (exampleParts
          "[FW-D] IN=eth1 OUT=eth0 SRC=192.168.1.5 DST=8.8.8.8 PROTO=ICMP TYPE=8") ≠
          Except.ok (Outcome.inserted row createID db')) ∧
      step utcZone (some exampleDb) (exampleParts
        "[FW-D] IN=eth1 OUT=eth0 SRC=192.168.1.5 DST=8.8.8.8 PROTO=ICMP TYPE=8") =
        Except.error Fault.indexOutOfRange :=
  no_record_without_token _ "MAC=".toList (by decide) (by decide) utcZone (some exampleDb)
    (exampleParts "[FW-D] IN=eth1 OUT=eth0 SRC=192.168.1.5 DST=8.8.8.8 PROTO=ICMP TYPE=8") rfl

/-! ## Timestamps -/

/-- The two calendar conversions are inverse to each other on days. -/
theorem daysOfCivil_civilOfDays (z : Int) :
    daysOfCivil (civilOfDays z).1 (civilOfDays z).2.1 (civilOfDays z).2.2 = z := by
  simp only [civilOfDays, daysOfCivil]
  have hdoe0 : 0 ≤ z + 719468 - (z + 719468) / 146097 * 146097 := by omega
  have hdoe1 : z + 719468 - (z + 719468) / 146097 * 146097 ≤ 146096 := by omega
  have hz : z = (z + 719468) / 146097 * 146097 +
      (z + 719468 - (z + 719468) / 146097 * 146097) - 719468 := by omega
  generalize (z + 719468) / 146097 = era at *
  generalize z + 719468 - era * 146097 = doe at *
  have h100 : 0 ≤ (if doe / 36524 ≥ 4 then 3 else doe / 36524) ∧
      (if doe / 36524 ≥ 4 then 3 else doe / 36524) ≤ 3 ∧
      0 ≤ doe - 36524 * (if doe / 36524 ≥ 4 then 3 else doe / 36524) ∧
      doe - 36524 * (if doe / 36524 ≥ 4 then 3 else doe / 36524) ≤ 36524 := by
    split_ifs <;> omega
  generalize (if doe / 36524 ≥ 4 then 3 else doe / 36524) = n100 at *
  have h4 : 0 ≤ (doe - 36524 * n100) / 1461 ∧ (doe - 36524 * n100) / 1461 ≤ 24 ∧
      0 ≤ doe - 36524 * n100 - 1461 * ((doe - 36524 * n100) / 1461) ∧
      doe - 36524 * n100 - 1461 * ((doe - 36524 * n100) / 1461) ≤ 1460 := by
    omega
  generalize (doe - 36524 * n100) / 1461 = n4 at *
  have h1 : 0 ≤ (if (doe - 36524 * n100 - 1461 * n4) / 365 ≥ 4 then 3
        else (doe - 36524 * n100 - 1461 * n4) / 365) ∧
      (if (doe - 36524 * n100 - 1461 * n4) / 365 ≥ 4 then 3
        else (doe - 36524 * n100 - 1461 * n4) / 365) ≤ 3 ∧
      0 ≤ doe - 36524 * n100 - 1461 * n4 - 365 * (if (doe - 36524 * n100 - 1461 * n4) / 365 ≥ 4
        then 3 else (doe - 36524 * n100 - 1461 * n4) / 365) ∧
      doe - 36524 * n100 - 1461 * n4 - 365 * (if (doe - 36524 * n100 - 1461 * n4) / 365 ≥ 4
        then 3 else (doe - 36524 * n100 - 1461 * n4) / 365) ≤ 365 := by
    split_ifs <;> omega
  generalize (if (doe - 36524 * n100 - 1461 * n4) / 365 ≥ 4 then 3
        else (doe - 36524 * n100 - 1461 * n4) / 365) = n1 at *
  have hdoy : doe = 36524 * n100 + 1461 * n4 + 365 * n1 +
      (doe - 36524 * n100 - 1461 * n4 - 365 * n1) := by omega
  generalize doe - 36524 * n100 - 1461 * n4 - 365 * n1 = doy at *
  subst hdoy
  subst hz
  have hmp : 0 ≤ (5 * doy + 2) / 153 ∧ (5 * doy + 2) / 153 ≤ 11 := by omega
  generalize (5 * doy + 2) / 153 = mp at *
  have hq4 : (100 * n100 + 4 * n4 + n1) / 4 = 25 * n100 + n4 := by omega
  have hq100 : (100 * n100 + 4 * n4 + n1) / 100 = n100 := by omega
  have hq400 : (100 * n100 + 4 * n4 + n1 + era * 400) / 400 = era := by omega
  split_ifs <;> simp only [add_sub_cancel_right, hq400] <;> omega

/-- The calendar fields of a timestamp depend on its wall clock and its nanoseconds
only. -/
theorem fields_eq_of_wall_eq (s t : Time) (hw : s.wall = t.wall) (hn : s.nsec = t.nsec) :
    s.fields = t.fields := by
  simp only [Time.fields, hw, hn]

/-- The function `setTimeZone` returns the instant whose distance to the wall clock of the input is
the offset `time.Date` settles on. -/
theorem setTimeZone_unix (zone : Location) (ts : Time) :
    (setTimeZone zone ts).unix = ts.wall - dateOffset zone ts.wall ∧
      (setTimeZone zone ts).nsec = ts.nsec := by
  have hw : daysOfCivil ts.fields.year ts.fields.month ts.fields.day * 86400 +
      ts.fields.hour * 3600 + ts.fields.minute * 60 + ts.fields.second = ts.wall := by
    simp only [Time.fields]
    rw [daysOfCivil_civilOfDays]
    omega
  refine ⟨?_, rfl⟩
  simp only [setTimeZone, Date, hw]

/-- C9, counterexample: the timestamp 2021-03-28 02:30:00 UTC and the local zone of
Brussels, where the clocks went from 02:00 to 03:00 that night: `setTimeZone` gives a
timestamp that reads 03:30:00 in the local zone, the hour is shifted. -/
theorem setTimeZone_shifts_skipped_hour :
    (Time.mk 1616898600 0 utcZone).fields = ⟨2021, 3, 28, 2, 30, 0, 0⟩ ∧
      (setTimeZone brusselsZone (Time.mk 1616898600 0 utcZone)).fields =
        ⟨2021, 3, 28, 3, 30, 0, 0⟩ ∧
      (setTimeZone brusselsZone (Time.mk 1616898600 0 utcZone)).fields ≠
        (Time.mk 1616898600 0 utcZone).fields := by
  decide

/-- C9, amended: for every input timestamp and every local zone such that (i) the
offsets of the zone are at most `M` seconds in absolute value, (ii) within `M` seconds
of the wall-clock reading of the timestamp, taken as an instant, the zone has at most
one transition (at `T`, from offset `a` to offset `b`), (iii) the period `lookup`
reports for that instant is one throughout which the offset it reports is in force, and
(iv) the reading exists in the local zone, that is, some instant of the zone shows it
(no transition skips it): `setTimeZone` replaces the timestamp by one in the local zone
whose calendar fields, read there, equal the calendar fields of the input read in its
own zone. -/
theorem setTimeZone_keeps_fields (zone : Location) (ts : Time) (M T a b : Int)
    (hbound : ∀ v, -M ≤ (zone.lookup v).offset ∧ (zone.lookup v).offset ≤ M)
    (hshape : ∀ v, ts.wall - M ≤ v → v ≤ ts.wall + M →
      (zone.lookup v).offset = if v < T then a else b)
    (hperiod : ∀ v, (zone.lookup ts.wall).start ≤ v → v < (zone.lookup ts.wall).stop →
      (zone.lookup v).offset = (zone.lookup ts.wall).offset)
    (hexists : ∃ u, u + (zone.lookup u).offset = ts.wall) :
    (setTimeZone zone ts).fields = ts.fields ∧
      (setTimeZone zone ts).loc.lookup = zone.lookup := by
  refine ⟨fields_eq_of_wall_eq _ _ ?_ (setTimeZone_unix zone ts).2, rfl⟩
  have hloc : (setTimeZone zone ts).loc = zone := rfl
  rw [Time.wall, hloc, (setTimeZone_unix zone ts).1]
  suffices h : (zone.lookup (ts.wall - dateOffset zone ts.wall)).offset =
      dateOffset zone ts.wall by
    rw [h]
    omega
  generalize ts.wall = w at hshape hperiod hexists ⊢
  obtain ⟨u, hu⟩ := hexists
  have b0 := hbound w
  have e0 := hshape w (by omega) (by omega)
  have bu := hbound u
  have eu := hshape u (by omega) (by omega)
  have b1 := hbound (w - (zone.lookup w).offset)
  have e1 := hshape (w - (zone.lookup w).offset) (by omega) (by omega)
  have er := hshape (w - (zone.lookup (w - (zone.lookup w).offset)).offset) (by omega) (by omega)
  simp only [dateOffset]
  by_cases h0 : (zone.lookup w).offset = 0
  · simp [h0]
  · rw [if_pos h0]
    by_cases hin : w - (zone.lookup w).offset < (zone.lookup w).start ∨
        w - (zone.lookup w).offset ≥ (zone.lookup w).stop
    · rw [if_pos hin, er]
      generalize (zone.lookup (w - (zone.lookup w).offset)).offset = off1 at *
      generalize (zone.lookup w).offset = off0 at *
      generalize (zone.lookup u).offset = offu at *
      split_ifs at e0 e1 eu ⊢ <;> omega
    · rw [if_neg hin]
      exact hperiod _ (by omega) (by omega)

/-- The timestamp 2021-03-28 01:30:00 UTC and the zone of Brussels, half an hour before
the hour the zone skips: the reading exists (00:30 UTC shows it), and the fields are
kept. -/
theorem setTimeZone_keeps_fields_witness :
    (setTimeZone brusselsZone (Time.mk 1616895000 5 utcZone)).fields =
        (Time.mk 1616895000 5 utcZone).fields ∧
      (setTimeZone brusselsZone (Time.mk 1616895000 5 utcZone)).loc.lookup =
        brusselsZone.lookup :=
  setTimeZone_keeps_fields brusselsZone (Time.mk 1616895000 5 utcZone) 7200 1616893200 3600 7200
    (by
      intro v
      simp only [brusselsZone, Location.ofTransitions, lookupTx]
      split_ifs <;> simp)
    (by
      intro v h1 h2
      have hw : (Time.mk 1616895000 5 utcZone).wall = 1616895000 := by decide
      rw [hw] at h1 h2
      simp only [brusselsZone, Location.ofTransitions, lookupTx]
      split_ifs <;> first | rfl | omega)
    (by
      intro v h1 h2
      have hw : (Time.mk 1616895000 5 utcZone).wall = 1616895000 := by decide
      have hz : brusselsZone.lookup 1616895000 = ⟨7200, 1616893200, 1635642000⟩ := by decide
      rw [hw, hz] at h1 h2 ⊢
      simp only at h1 h2 ⊢
      simp only [brusselsZone, Location.ofTransitions, lookupTx]
      split_ifs <;> first | rfl | omega)
    ⟨1616891400, by decide⟩

/-! ## The loop -/

theorem setTimeZone_eq (zone : Location) (ts : Time) :
    setTimeZone zone ts = ⟨ts.wall - dateOffset zone ts.wall, ts.nsec, zone⟩ := by
  have h := (setTimeZone_unix zone ts).1
  have hn : (setTimeZone zone ts).nsec = ts.nsec := rfl
  have hl : (setTimeZone zone ts).loc = zone := rfl
  cases hs : setTimeZone zone ts with
  | mk unix nsec loc =>
    rw [hs] at h hn hl
    simp only at h hn hl
    rw [h, hn, hl]

/-- The row the loop builds for a content that matches is the record of the
envelope. -/
theorem mkRow_eq_recordOf (zone : Location) (logParts : LogParts) (m : List Str)
    (h : findStringSubmatch logParts.content = some m) :
    mkRow zone logParts (fieldsOf m) (lastCharAction (m.getD 1 [])) = recordOf zone logParts := by
  simp only [recordOf, h, Option.getD_some, mkRow, setTimeZone_eq]
  rfl

/-- C10: the loop over `N` messages whose contents match with a rule that is not empty,
against a database that answers and gives strictly increasing identities to its
inserts, ends without a fault after exactly `N` inserts; the rows it adds are, in the
order of arrival, the records of the `N` envelopes (the `i`-th row inserted carries the
fields of the `i`-th envelope, none is left out), and the `N` identities returned are
those the database gives to its next `N` inserts, strictly increasing and so
distinct. -/
theorem pipeline_inserts_in_order (zone : Location) (d : Db) (envs : List LogParts)
    (hd : d.reachable = true) (hmono : StrictMono d.ident)
    (hm : ∀ e ∈ envs, ∃ m, findStringSubmatch e.content = some m ∧ m.getD 1 [] ≠ []) :
    ∃ ids dEnd, pipeline zone d envs = Except.ok (ids, dEnd) ∧
      ids.length = envs.length ∧
      dEnd.rows.length = d.rows.length + envs.length ∧
      dEnd.rows = d.rows ++ ids.zip (envs.map (recordOf zone)) ∧
      ids = (List.range envs.length).map (fun i => d.ident (d.rows.length + i)) ∧
      ids.Pairwise (fun a b => a < b) ∧ ids.Nodup := by
  have main : ∀ (envs : List LogParts) (d : Db), d.reachable = true →
      (∀ e ∈ envs, ∃ m, findStringSubmatch e.content = some m ∧ m.getD 1 [] ≠ []) →
      ∃ dEnd, pipeline zone d envs =
          Except.ok ((List.range envs.length).map (fun i => d.ident (d.rows.length + i)), dEnd) ∧
        dEnd.rows = d.rows ++
          ((List.range envs.length).map (fun i => d.ident (d.rows.length + i))).zip
            (envs.map (recordOf zone)) := by
    intro envs
    induction envs with
    | nil =>
      intro d _ _
      exact ⟨d, rfl, by simp⟩
    | cons e rest ih =>
      intro d hd hm
      obtain ⟨m, hmatch, hrule⟩ := hm e (by simp)
      have hstep := step_of_match zone d e m hmatch hrule hd
      rw [mkRow_eq_recordOf zone e m hmatch] at hstep
      obtain ⟨dEnd, hp, hrows⟩ := ih (d.insert (recordOf zone e)) hd
        (fun e' he' => hm e' (by simp [he']))
      refine ⟨dEnd, ?_, ?_⟩
      · rw [pipeline, hstep]
        simp only [hp]
        simp [List.range_succ_eq_map, Db.insert, Function.comp_def, Nat.add_assoc,
          Nat.add_comm 1]
      · rw [hrows]
        simp [List.range_succ_eq_map, Db.insert, Function.comp_def, Nat.add_assoc,
          Nat.add_comm 1]
  obtain ⟨dEnd, hp, hrows⟩ := main envs d hd hm
  have hpw : ((List.range envs.length).map (fun i => d.ident (d.rows.length + i))).Pairwise
      (fun a b => a < b) := by
    rw [List.pairwise_map]
    exact (List.pairwise_lt_range envs.length).imp fun hab => hmono (by omega)
  refine ⟨_, dEnd, hp, by simp, ?_, hrows, rfl, hpw, hpw.imp fun hab => ne_of_lt hab⟩
  rw [hrows]
  simp

/-- Two messages of the scenarios, against a database that numbers its rows from one:
two inserts, with the identities 1 and 2, the first row that of the first message and
the second row that of the second. -/
theorem pipeline_inserts_in_order_witness :
    ∃ ids dEnd,
      pipeline utcZone exampleDb
        [exampleParts
          "[RULE-A] IN=eth0 OUT= MAC=00:11:22:33:44:55 SRC=10.0.0.1 DST=10.0.0.2 PROTO=TCP SPT=1234 DPT=80",
         exampleParts
          "[FW-D] IN=eth1 OUT=eth0 MAC=aa:bb:cc:dd:ee:ff SRC=192.168.1.5 DST=8.8.8.8 PROTO=ICMP TYPE=8"] =
        Except.ok (ids, dEnd) ∧
      ids.length = 2 ∧
      dEnd.rows.length = exampleDb.rows.length + 2 ∧
      dEnd.rows = exampleDb.rows ++ ids.zip
        ([exampleParts
          "[RULE-A] IN=eth0 OUT= MAC=00:11:22:33:44:55 SRC=10.0.0.1 DST=10.0.0.2 PROTO=TCP SPT=1234 DPT=80",
         exampleParts
          "[FW-D] IN=eth1 OUT=eth0 MAC=aa:bb:cc:dd:ee:ff SRC=192.168.1.5 DST=8.8.8.8 PROTO=ICMP TYPE=8"].map
          (recordOf utcZone)) ∧
      ids = (List.range 2).map (fun i => exampleDb.ident (exampleDb.rows.length + i)) ∧
      ids.Pairwise (fun a b => a < b) ∧ ids.Nodup :=
  pipeline_inserts_in_order utcZone exampleDb _ rfl
    (fun a b hab => by simp only [exampleDb]; omega)
    (by
      intro e he
      simp only [List.mem_cons, List.mem_singleton, List.not_mem_nil, or_false] at he
      rcases he with he | he
      · subst he
        exact ⟨["[RULE-A] IN=eth0 OUT= MAC=00:11:22:33:44:55 SRC=10.0.0.1 DST=10.0.0.2 PROTO=TCP SPT=1234 DPT=80",
          "RULE-A", "eth0", "", "00:11:22:33:44:55", "10.0.0.1", "10.0.0.2", "TCP",
          "SPT=1234 DPT=80", "1234", "80"].map String.toList, by decide, by decide⟩
      · subst he
        exact ⟨["[FW-D] IN=eth1 OUT=eth0 MAC=aa:bb:cc:dd:ee:ff SRC=192.168.1.5 DST=8.8.8.8 PROTO=ICMP ",
          "FW-D", "eth1", "eth0", "aa:bb:cc:dd:ee:ff", "192.168.1.5", "8.8.8.8", "ICMP",
          "", "", ""].map String.toList, by decide, by decide⟩)

end FirewallSyslog
